import Mathlib

/-!
# Step execution engine (`pkg/runner/step.go`)

A shallow embedding of the step executor of the workflow runner and the
properties of its run protocol.

Conventions of the embedding.

* A Go `map[string]T` is an association list; `range` visits the entries in
  list order, `m[k] = v` is `assign`, `m[k]` is `index`.  A well-formed map
  has pairwise distinct keys (`WF`).
* A Go `error` is its message; `nil` is `none`.
* `*model.StepResult` values live in a store (`State.heap`); a pointer is an
  index into it, so that the aliasing between the local `stepResult` and the
  entry of `rc.StepResults` is the one of the source.
* Code of other files and packages (expression evaluator, container backend,
  setters of the run context, `path.Join`, `strings.ToLower`) is taken as a
  parameter, bundled in `Collaborators`.  Collaborators may read the whole
  state.  What they mutate is the backend world `W`; the setters and the
  body of a step may also write the `Outputs` of the step results (an
  `Effect`).  The statuses of the results, the table `rc.StepResults` and
  `rc.CurrentStep` are written by this file only.
* The file `syncfile` is taken to open; when it does not, the source ignores
  the failed writes and nothing else changes.
* Logging calls are not modelled.
-/

namespace runner

/-! ## Maps -/

/-- A Go `map[string]string`. -/
abbrev GoMap := List (String × String)

/-- The lookup `v, ok := m[k]`. -/
def index {β : Type} (m : List (String × β)) (k : String) : Option β :=
  match m with
  | [] => none
  | (k', v) :: rest => if k' = k then some v else index rest k

/-- The assignment `m[k] = v`: overwrite in place, or add a new entry. -/
def assign {β : Type} (m : List (String × β)) (k : String) (v : β) : List (String × β) :=
  match m with
  | [] => [(k, v)]
  | (k', v') :: rest => if k' = k then (k', v) :: rest else (k', v') :: assign rest k v

/-- The keys of a map, in visiting order. -/
def keys {β : Type} (m : List (String × β)) : List String := m.map Prod.fst

/-- Well-formedness of a map: no key occurs twice. -/
def WF {β : Type} (m : List (String × β)) : Prop := (keys m).Nodup

instance {β : Type} (m : List (String × β)) : Decidable (WF m) :=
  inferInstanceAs (Decidable (keys m).Nodup)

/-! ## Data model -/

/-- The type `stepStage`, an `int` in the source. -/
abbrev stepStage := Int

def stepStagePre : stepStage := 0
def stepStageMain : stepStage := 1
def stepStagePost : stepStage := 2

/-- The method `stepStage.String`. -/
def stepStage.String (s : stepStage) : String :=
  if s = stepStagePre then "Pre"
  else if s = stepStageMain then "Main"
  else if s = stepStagePost then "Post"
  else "Unknown"

/-- The type `model.StepStatus`. -/
inductive StepStatus where
  | StepStatusSuccess
  | StepStatusFailure
  | StepStatusSkipped
  deriving DecidableEq, Repr

open StepStatus

/-- The type `model.StepResult`. -/
structure StepResult where
  Outcome : StepStatus
  Conclusion : StepStatus
  Outputs : GoMap
  deriving DecidableEq, Repr

/-- The type `exprparser.DefaultStatusCheck`. -/
inductive DefaultStatusCheck where
  | DefaultStatusCheckNone
  | DefaultStatusCheckSuccess
  | DefaultStatusCheckAlways
  deriving DecidableEq, Repr

open DefaultStatusCheck

/-- A Go `error`, by its message. -/
abbrev error := String

/-- The fields of `model.Step` read by the executor. `If` is `If.Value`,
`Env` is the result of `GetEnv()`. The field `Prev` is kept in `State`. -/
structure Step where
  ID : String
  If : String
  RawContinueOnError : String
  TimeoutMinutes : String
  Env : GoMap
  deriving DecidableEq, Repr

/-- The interface `step`: its model and its stage-dependent if-expression.
The environment behind `getEnv()` is `State.env`. -/
structure step where
  getStepModel : Step
  getIfExpression : stepStage → String

/-- The type `container.FileEntry` (name and mode). -/
structure FileEntry where
  Name : String
  Mode : Nat
  deriving DecidableEq, Repr

/-- The mutable state an invocation works on: the run context `rc`, the
store of step results, and the two mutable parts of the step. -/
structure State (W : Type) where
  /-- The field `rc.CurrentStep`. -/
  CurrentStep : String
  /-- The field `rc.StepResults`: step ID to pointer. -/
  StepResults : List (String × Nat)
  /-- The store of allocated `*model.StepResult`. -/
  heap : List StepResult
  /-- The result of `rc.steps()`. -/
  steps : List Step
  /-- The field `rc.Run.JobID`. -/
  JobID : String
  /-- The value `rc.Run.Job().If.Value`. -/
  JobIf : String
  /-- The value `rc.Run.Job().CondInserted`. -/
  CondInserted : Bool
  /-- The field `step.getStepModel().Prev`. -/
  Prev : Option Step
  /-- The map `*step.getEnv()`. -/
  env : GoMap
  /-- The lines appended to the file `syncfile`. -/
  syncfile : List String
  /-- The state owned by the collaborators: container, files, saved state,
  extra path, global environment. -/
  world : W

/-- What a setter or the body of a step leaves: the backend world, and for
each step result, by its pointer, the new content of its `Outputs`. -/
abbrev Effect (W : Type) := W × (Nat → GoMap → GoMap)

/-- The store after the outputs of an effect are written, from pointer `p` on. -/
def writeOutputsFrom (t : Nat → GoMap → GoMap) (p : Nat) : List StepResult → List StepResult
  | [] => []
  | r :: rest => { r with Outputs := t p r.Outputs } :: writeOutputsFrom t (p + 1) rest

/-- The store after the outputs of an effect are written. -/
def writeOutputs (t : Nat → GoMap → GoMap) (heap : List StepResult) : List StepResult :=
  writeOutputsFrom t 0 heap

/-- The state after an effect. -/
def commit {W : Type} (rc : State W) (m : Effect W) : State W :=
  { rc with world := m.1, heap := writeOutputs m.2 rc.heap }

/-- The code this file calls and does not define. -/
structure Collaborators (W : Type) where
  /-- The function `strings.ToLower`. -/
  ToLower : String → String
  /-- The function `path.Join`, on two elements. -/
  Join : String → String → String
  /-- The value of the guard
  `rc != nil && rc.JobContainer != nil && rc.JobContainer.IsEnvironmentCaseInsensitive()`. -/
  IsEnvironmentCaseInsensitive : W → Bool
  /-- The method `rc.GetEnv`: the ambient environment of the job. -/
  GetEnv : State W → GoMap
  /-- The environment `c.Env` of `job.Container()`, `none` when that is `nil`. -/
  Container : State W → Option GoMap
  /-- The map left by `rc.withGithubEnv(ctx, step.getGithubContext(ctx), env)`,
  which writes the context-derived variables into `env`. -/
  withGithubEnv : State W → GoMap → GoMap
  /-- The method `Interpolate` of `rc.NewExpressionEvaluator(ctx)`. -/
  NewExpressionEvaluator : State W → String → String
  /-- The method `Interpolate` of `rc.NewExpressionEvaluatorWithEnv(ctx, env)`.
  The evaluator is given the map `env` itself, not a copy: its second argument
  here is the content of that map when `Interpolate` is called. -/
  NewExpressionEvaluatorWithEnv : State W → GoMap → String → String
  /-- The method `rc.ExprEval.Interpolate`. -/
  ExprEval : State W → String → String
  /-- The function `EvalBool` applied to `rc.NewStepExpressionEvaluator(ctx, step)`. -/
  EvalBool : State W → step → String → DefaultStatusCheck → Bool × Option error
  /-- The method `rc.JobContainer.GetActPath`. -/
  GetActPath : W → String
  /-- The method `rc.JobContainer.Copy`; its error is discarded by the caller. -/
  Copy : String → List FileEntry → W → W
  /-- The method `rc.JobContainer.UpdateFromEnv`: the parsed file and the error. -/
  UpdateFromEnv : String → W → GoMap × Option error
  /-- The method `rc.setEnv`. -/
  setEnv : GoMap → String → State W → Effect W
  /-- The method `rc.saveState`. -/
  saveState : GoMap → String → State W → Effect W
  /-- The method `rc.setOutput`. -/
  setOutput : GoMap → String → State W → Effect W
  /-- The method `rc.UpdateExtraPath`. -/
  UpdateExtraPath : String → State W → W × Option error

/-! ## Standard library functions -/

/-- The function `unicode.IsSpace`. -/
def IsSpace (c : Char) : Bool :=
  let n := c.toNat
  (9 ≤ n && n ≤ 13) || n = 0x20 || n = 0x85 || n = 0xA0 || n = 0x1680
    || (0x2000 ≤ n && n ≤ 0x200a) || n = 0x2028 || n = 0x2029 || n = 0x202f
    || n = 0x205f || n = 0x3000

/-- The function `strings.TrimSpace`. -/
def TrimSpace (s : String) : String :=
  String.mk (((s.data.dropWhile IsSpace).reverse.dropWhile IsSpace).reverse)

/-- The function `strings.HasPrefix`. -/
def HasPrefix (s p : String) : Bool := p.data.isPrefixOf s.data

/-- The function `strconv.ParseInt(s, 10, 64)`: `some n` when the error is
`nil`, `none` on a syntax or range error. -/
def ParseInt (s : String) : Option Int :=
  match s.data with
  | [] => none
  | c :: rest =>
    let neg := decide (c = '-')
    let digits := if c = '+' ∨ c = '-' then rest else c :: rest
    if digits = [] ∨ ¬ (digits.all Char.isDigit) then none
    else
      let un : Nat := digits.foldl (fun n d => 10 * n + (d.toNat - 48)) 0
      if 2 ^ 64 ≤ un then none
      else if !neg ∧ 2 ^ 63 ≤ un then none
      else if neg ∧ 2 ^ 63 < un then none
      else some (if neg then - (un : Int) else (un : Int))

/-- Reduction of an integer to the range of `int64` (two's complement). -/
def wrap64 (x : Int) : Int := (x + 2 ^ 63) % 2 ^ 64 - 2 ^ 63

/-- The constant `time.Minute`, in nanoseconds. -/
def Minute : Int := 60 * 1000000000

/-! ## Merging environments -/

/-- The function `mergeIntoMapCaseSensitive`. -/
def mergeIntoMapCaseSensitive (target : GoMap) (maps : List GoMap) : GoMap :=
  maps.foldl (fun t m => m.foldl (fun t kv => assign t kv.1 kv.2) t) target

/-- The closure `toKey` of `mergeIntoMapCaseInsensitive`: the spelling to
write under, and the table `foldKeys` after the call. -/
def toKey (ToLower : String → String) (foldKeys : GoMap) (s : String) : String × GoMap :=
  let foldKey := ToLower s
  match index foldKeys foldKey with
  | some k => (k, foldKeys)
  | none => (s, assign foldKeys (ToLower foldKey) s)

/-- The table `foldKeys` built from the keys of the target. -/
def initFoldKeys (ToLower : String → String) (target : GoMap) : GoMap :=
  target.foldl (fun fk kv => assign fk (ToLower kv.1) kv.1) []

/-- One pass of the inner loop of `mergeIntoMapCaseInsensitive`, on the pair
of the target and `foldKeys`. -/
def insensitiveWrite (ToLower : String → String) (st : GoMap × GoMap) (kv : String × String) :
    GoMap × GoMap :=
  let r := toKey ToLower st.2 kv.1
  (assign st.1 r.1 kv.2, r.2)

/-- The function `mergeIntoMapCaseInsensitive`. -/
def mergeIntoMapCaseInsensitive (ToLower : String → String) (target : GoMap)
    (maps : List GoMap) : GoMap :=
  (maps.foldl (fun st m => m.foldl (insensitiveWrite ToLower) st)
    (target, initFoldKeys ToLower target)).1

variable {W : Type}

/-- The function `mergeIntoMap`, returning the target after the merge. -/
def mergeIntoMap (C : Collaborators W) (rc : State W) (target : GoMap) (maps : List GoMap) :
    GoMap :=
  if C.IsEnvironmentCaseInsensitive rc.world then
    mergeIntoMapCaseInsensitive C.ToLower target maps
  else
    mergeIntoMapCaseSensitive target maps

/-- The function `mergeEnv`. -/
def mergeEnv (C : Collaborators W) (rc : State W) : State W :=
  let env :=
    match C.Container rc with
    | some c => mergeIntoMap C rc rc.env [C.GetEnv rc, c]
    | none => mergeIntoMap C rc rc.env [C.GetEnv rc]
  { rc with env := C.withGithubEnv { rc with env := env } env }

/-- The first two statements of `setupEnv`: `mergeEnv`, then the merge of the
environment declared by the step. -/
def composeEnv (C : Collaborators W) (s : step) (rc : State W) : State W :=
  let rc := mergeEnv C rc
  { rc with env := mergeIntoMap C rc rc.env [s.getStepModel.Env] }

/-- The first loop of `setupEnv`: keys without the prefix `INPUT_`. -/
def interpolatePass1 (exprEval : String → String) (env : GoMap) : GoMap :=
  env.foldl (fun e kv => if ! HasPrefix kv.1 "INPUT_" then assign e kv.1 (exprEval kv.2) else e) env

/-- The second loop of `setupEnv`: keys with the prefix `INPUT_`.  The
evaluator holds the map the loop writes, so each interpolation reads the
environment as it stands at that visit. -/
def interpolatePass2 (exprEval : GoMap → String → String) (env : GoMap) : GoMap :=
  env.foldl
    (fun e kv => if HasPrefix kv.1 "INPUT_" then assign e kv.1 (exprEval e kv.2) else e) env

/-- The state after the first loop of `setupEnv`, with the evaluator of
`rc.NewExpressionEvaluator(ctx)`. -/
def afterPass1 (C : Collaborators W) (rc : State W) : State W :=
  { rc with env := interpolatePass1 (C.NewExpressionEvaluator rc) rc.env }

/-- The two interpolation passes of `setupEnv`; the second evaluator is the
one of `rc.NewExpressionEvaluatorWithEnv(ctx, *step.getEnv())`, built after
the first pass on the map of the step environment. -/
def interpolateEnv (C : Collaborators W) (rc : State W) : State W :=
  let rc := afterPass1 C rc
  { rc with env := interpolatePass2 (C.NewExpressionEvaluatorWithEnv rc) rc.env }

/-- The function `setupEnv`. -/
def setupEnv (C : Collaborators W) (s : step) (rc : State W) : State W × Option error :=
  (interpolateEnv C (composeEnv C s rc), none)

/-! ## Conditions -/

/-- The function `isStepEnabled`. -/
def isStepEnabled (C : Collaborators W) (expr : String) (s : step) (stage : stepStage)
    (rc : State W) : Bool × Option error :=
  let defaultStatusCheck :=
    if stage = stepStagePost then DefaultStatusCheckAlways else DefaultStatusCheckSuccess
  let r := C.EvalBool rc s expr defaultStatusCheck
  match r.2 with
  | some err =>
    (false, some ("  ❌  Error in if-expression: \"if: " ++ expr ++ "\" (" ++ err ++ ")"))
  | none => (r.1, none)

/-- The function `isContinueOnError`. -/
def isContinueOnError (C : Collaborators W) (expr : String) (s : step) (_stage : stepStage)
    (rc : State W) : Bool × Option error :=
  if (TrimSpace expr).utf8ByteSize = 0 then (false, none)
  else
    let r := C.EvalBool rc s expr DefaultStatusCheckNone
    match r.2 with
    | some err =>
      (false, some ("  ❌  Error in continue-on-error-expression: \"continue-on-error: "
        ++ expr ++ "\" (" ++ err ++ ")"))
    | none => (r.1, none)

/-! ## Timeout -/

/-- The function `evaluateStepTimeout`: `some d` is a scope derived with
`context.WithTimeout(ctx, d)`, `d` in nanoseconds; `none` is the parent scope
with the no-op release function. -/
def evaluateStepTimeout (exprEval : String → String) (stepModel : Step) : Option Int :=
  let timeout := exprEval stepModel.TimeoutMinutes
  if timeout ≠ "" then
    match ParseInt timeout with
    | some timeOutMinutes => some (wrap64 (timeOutMinutes * Minute))
    | none => none
  else none

/-! ## Runner file commands -/

/-- The function `processRunnerEnvFileCommand`. -/
def processRunnerEnvFileCommand (C : Collaborators W) (fileName : String)
    (setter : GoMap → String → State W → Effect W) (rc : State W) :
    State W × Option error :=
  let r := C.UpdateFromEnv (C.Join (C.GetActPath rc.world) fileName) rc.world
  match r.2 with
  | some err => (rc, some err)
  | none => (r.1.foldl (fun rc kv => commit rc (setter [("name", kv.1)] kv.2 rc)) rc, none)

/-! ## The executor -/

/-- The node `"<job> - step <id>"` of the trace graph. -/
def stepNode (jobID id : String) : String := "\"" ++ jobID ++ " - step " ++ id ++ "\""

/-- The node `"<job> - cond <id>"` of the trace graph. -/
def condNode (jobID id : String) : String := "\"" ++ jobID ++ " - cond " ++ id ++ "\""

/-- An edge line of the trace graph. -/
def edge (a b : String) : String := a ++ " -> " ++ b ++ ";\n"

/-- The edges written to `syncfile` after the node line; the source has the
same block in the branch of a step that runs and of one that does not. -/
def traceEdges (rc : State W) (stepModel : Step) (previousStep : Option Step) : List String :=
  let J := rc.JobID
  let S := stepModel.ID
  match previousStep with
  | some previous =>
    let P := previous.ID
    if stepModel.If ≠ "" then
      [edge (condNode J S) (stepNode J S)] ++
        (if previous.If ≠ "" then
          [edge (condNode J P) (condNode J S), edge (stepNode J P) (condNode J S)]
        else
          [edge (stepNode J P) (condNode J S)])
    else
      (if previous.If ≠ "" then [edge (condNode J P) (stepNode J S)] else []) ++
        [edge (stepNode J P) (stepNode J S)]
  | none =>
    if stepModel.If ≠ "" then
      [if rc.JobIf ≠ "" ∧ rc.CondInserted = false then
          edge ("\"cond - " ++ J ++ "\"") (condNode J S)
        else
          edge ("\"job - " ++ J ++ "\"") (condNode J S),
        edge (condNode J S) (stepNode J S)]
    else
      [edge ("\"job - " ++ J ++ "\"") (stepNode J S)]

/-- The lines written to `syncfile` by one invocation. -/
def traceLines (rc : State W) (stepModel : Step) (previousStep : Option Step)
    (runStep : Bool) : List String :=
  (if runStep then stepNode rc.JobID stepModel.ID ++ ";\n"
    else stepNode rc.JobID stepModel.ID ++ " [style=dashed];\n")
    :: traceEdges rc stepModel previousStep

/-- The closure `previousStep` of `runStepExecutor`: the last step of the list
whose ID is `rc.CurrentStep`. -/
def previousStep (rc : State W) : Option Step :=
  rc.steps.foldl (fun prevStep ps => if ps.ID = rc.CurrentStep then some ps else prevStep) none

/-- A write through the pointer `stepResult`. -/
def setStatus (heap : List StepResult) (p : Nat) (f : StepResult → StepResult) :
    List StepResult :=
  heap.modify f p

/-- The entry of `rc.StepResults` under a step ID, read through its pointer. -/
def recorded (rc : State W) (id : String) : Option StepResult :=
  match index rc.StepResults id with
  | some p => rc.heap.get? p
  | none => none

/-- The callback-file processing at the end of `runStepExecutor`, from
`orgerr := err` on; `actPath` is the local of that name, read before the body
runs. -/
def reconcile (C : Collaborators W) (actPath : String) (orgerr : Option error)
    (rc : State W) : State W × Option error :=
  let r := processRunnerEnvFileCommand C (C.Join "workflow" "envs.txt") C.setEnv rc
  match r.2 with
  | some err => (r.1, some err)
  | none =>
  let r := processRunnerEnvFileCommand C (C.Join "workflow" "statecmd.txt") C.saveState r.1
  match r.2 with
  | some err => (r.1, some err)
  | none =>
  let r := processRunnerEnvFileCommand C (C.Join "workflow" "outputcmd.txt") C.setOutput r.1
  match r.2 with
  | some err => (r.1, some err)
  | none =>
  let rc := r.1
  let u := C.UpdateExtraPath (C.Join actPath (C.Join "workflow" "pathcmd.txt")) rc
  let rc := { rc with world := u.1 }
  match u.2 with
  | some err => (rc, some err)
  | none =>
  match orgerr with
  | some e => (rc, some e)
  | none => (rc, none)

/-- The statements of `runStepExecutor` between the skip check and the call
of the body, after `actPath` is read: the five callback-file variables and the
creation of the files. -/
def prepareFileCommands (C : Collaborators W) (actPath : String) (rc : State W) : State W :=
  let outputFileCommand := C.Join "workflow" "outputcmd.txt"
  let rc := { rc with env := assign rc.env "GITHUB_OUTPUT" (C.Join actPath outputFileCommand) }
  let stateFileCommand := C.Join "workflow" "statecmd.txt"
  let rc := { rc with env := assign rc.env "GITHUB_STATE" (C.Join actPath stateFileCommand) }
  let pathFileCommand := C.Join "workflow" "pathcmd.txt"
  let rc := { rc with env := assign rc.env "GITHUB_PATH" (C.Join actPath pathFileCommand) }
  let envFileCommand := C.Join "workflow" "envs.txt"
  let rc := { rc with env := assign rc.env "GITHUB_ENV" (C.Join actPath envFileCommand) }
  let summaryFileCommand := C.Join "workflow" "SUMMARY.md"
  let rc := { rc with
    env := assign rc.env "GITHUB_STEP_SUMMARY" (C.Join actPath summaryFileCommand) }
  let files : List FileEntry :=
    [⟨outputFileCommand, 0o666⟩, ⟨stateFileCommand, 0o666⟩, ⟨pathFileCommand, 0o666⟩,
      ⟨envFileCommand, 0o666⟩, ⟨summaryFileCommand, 0o666⟩]
  { rc with world := C.Copy actPath files rc.world }

/-- The state of `runStepExecutor` when `setupEnv` is called, and the pointer
`stepResult`: back-reference set, current step updated, a fresh result
allocated and, at stage Main, recorded. -/
def enter (s : step) (stage : stepStage) (rc : State W) : State W × Nat :=
  let stepModel := s.getStepModel
  let rc := { rc with Prev := previousStep rc }
  let rc := { rc with CurrentStep := stepModel.ID }
  let stepResult := rc.heap.length
  let rc := { rc with
    heap := rc.heap ++ [⟨StepStatusSuccess, StepStatusSuccess, []⟩] }
  let rc :=
    if stage = stepStageMain then
      { rc with StepResults := assign rc.StepResults rc.CurrentStep stepResult }
    else rc
  (rc, stepResult)

/-- The function `runStepExecutor`, applied to the state of the run: the
state after the call and the error returned.  The body `executor` receives
the timeout scope and the state, and returns its effect and its error. -/
def runStepExecutor (C : Collaborators W) (s : step) (stage : stepStage)
    (executor : Option Int → State W → Effect W × Option error) (rc : State W) :
    State W × Option error :=
  let stepModel := s.getStepModel
  let previous := previousStep rc
  let ifExpression := s.getIfExpression stage
  let en := enter s stage rc
  let stepResult := en.2
  let r := setupEnv C s en.1
  match r.2 with
  | some err => (r.1, some err)
  | none =>
  let rc := r.1
  let en := isStepEnabled C ifExpression s stage rc
  let runStep := en.1
  let rc := { rc with syncfile := rc.syncfile ++ traceLines rc stepModel previous runStep }
  match en.2 with
  | some err =>
    ({ rc with heap := setStatus rc.heap stepResult (fun x =>
        { x with Conclusion := StepStatusFailure, Outcome := StepStatusFailure }) }, some err)
  | none =>
  if ! runStep then
    ({ rc with heap := setStatus rc.heap stepResult (fun x =>
        { x with Conclusion := StepStatusSkipped, Outcome := StepStatusSkipped }) }, none)
  else
  let actPath := C.GetActPath rc.world
  let rc := prepareFileCommands C actPath rc
  let timeoutctx := evaluateStepTimeout (C.ExprEval rc) stepModel
  let b := executor timeoutctx rc
  let rc := commit rc b.1
  match b.2 with
  | none => reconcile C actPath none rc
  | some err =>
    let rc := { rc with heap := setStatus rc.heap stepResult (fun x =>
      { x with Outcome := StepStatusFailure }) }
    let c := isContinueOnError C stepModel.RawContinueOnError s stage rc
    match c.2 with
    | some parseErr =>
      ({ rc with heap := setStatus rc.heap stepResult (fun x =>
          { x with Conclusion := StepStatusFailure }) }, some parseErr)
    | none =>
      if c.1 then
        reconcile C actPath none { rc with heap := setStatus rc.heap stepResult (fun x =>
          { x with Conclusion := StepStatusSuccess }) }
      else
        reconcile C actPath (some err) { rc with heap := setStatus rc.heap stepResult (fun x =>
          { x with Conclusion := StepStatusFailure }) }

/-! ## Program points of `runStepExecutor` -/

/-- The state on which `isStepEnabled` is evaluated (after `setupEnv`). -/
def atIf (C : Collaborators W) (s : step) (stage : stepStage) (rc : State W) : State W :=
  (setupEnv C s (enter s stage rc).1).1

/-- The result of the call of `isStepEnabled` in `runStepExecutor`. -/
def ifResult (C : Collaborators W) (s : step) (stage : stepStage) (rc : State W) :
    Bool × Option error :=
  isStepEnabled C (s.getIfExpression stage) s stage (atIf C s stage rc)

/-- The state after the trace lines are written. -/
def atTrace (C : Collaborators W) (s : step) (stage : stepStage) (rc : State W) : State W :=
  { atIf C s stage rc with
    syncfile := (atIf C s stage rc).syncfile ++
      traceLines (atIf C s stage rc) s.getStepModel (previousStep rc) (ifResult C s stage rc).1 }

/-- The local `actPath` of `runStepExecutor`. -/
def actPath (C : Collaborators W) (s : step) (stage : stepStage) (rc : State W) : String :=
  C.GetActPath (atTrace C s stage rc).world

/-- The state on which the body is called, for a step that runs. -/
def atBody (C : Collaborators W) (s : step) (stage : stepStage) (rc : State W) : State W :=
  prepareFileCommands C (actPath C s stage rc) (atTrace C s stage rc)

/-- The result of the call of the body in `runStepExecutor`. -/
def bodyResult (C : Collaborators W) (s : step) (stage : stepStage)
    (executor : Option Int → State W → Effect W × Option error) (rc : State W) :
    Effect W × Option error :=
  executor (evaluateStepTimeout (C.ExprEval (atBody C s stage rc)) s.getStepModel)
    (atBody C s stage rc)

/-- The state the body leaves. -/
def afterBody (C : Collaborators W) (s : step) (stage : stepStage)
    (executor : Option Int → State W → Effect W × Option error) (rc : State W) : State W :=
  commit (atBody C s stage rc) (bodyResult C s stage executor rc).1

/-- The state on which `isContinueOnError` is evaluated, for a body that
failed: the state left by the body, with `Outcome` set to failure. -/
def atContinue (C : Collaborators W) (s : step) (stage : stepStage)
    (executor : Option Int → State W → Effect W × Option error) (rc : State W) : State W :=
  { afterBody C s stage executor rc with
    heap := setStatus (afterBody C s stage executor rc).heap (enter s stage rc).2
      (fun x => { x with Outcome := StepStatusFailure }) }

/-- The result of the call of `isContinueOnError` in `runStepExecutor`. -/
def continueResult (C : Collaborators W) (s : step) (stage : stepStage)
    (executor : Option Int → State W → Effect W × Option error) (rc : State W) : Bool × Option error :=
  isContinueOnError C s.getStepModel.RawContinueOnError s stage (atContinue C s stage executor rc)

/-- The state on which the callback files are processed, for a step that ran
and whose continue-on-error expression, if evaluated, gave no error. -/
def atReconcile (C : Collaborators W) (s : step) (stage : stepStage)
    (executor : Option Int → State W → Effect W × Option error) (rc : State W) : State W :=
  match (bodyResult C s stage executor rc).2 with
  | none => afterBody C s stage executor rc
  | some _ =>
    { atContinue C s stage executor rc with
      heap := setStatus (atContinue C s stage executor rc).heap (enter s stage rc).2
        (fun x => { x with
          Conclusion := if (continueResult C s stage executor rc).1 then StepStatusSuccess
            else StepStatusFailure }) }

/-- The errors of the four reconciliation steps in their order (env-update
file, state file, output file, extra path), each run on the state left by the
steps before it. -/
def reconcileErrors (C : Collaborators W) (actPath : String) (rc : State W) :
    List (Option error) :=
  let p1 := processRunnerEnvFileCommand C (C.Join "workflow" "envs.txt") C.setEnv rc
  let p2 := processRunnerEnvFileCommand C (C.Join "workflow" "statecmd.txt") C.saveState p1.1
  let p3 := processRunnerEnvFileCommand C (C.Join "workflow" "outputcmd.txt") C.setOutput p2.1
  let u := C.UpdateExtraPath (C.Join actPath (C.Join "workflow" "pathcmd.txt")) p3.1
  [p1.2, p2.2, p3.2, u.2]

/-- The errors of the four reconciliation steps in `runStepExecutor`, for a
step that ran. -/
def reconcileResult (C : Collaborators W) (s : step) (stage : stepStage)
    (executor : Option Int → State W → Effect W × Option error) (rc : State W) :
    List (Option error) :=
  reconcileErrors C (actPath C s stage rc) (atReconcile C s stage executor rc)

/-- The frame of the collaborators that mutate: state `b` is state `a` up to
the backend world and the outputs of the step results. -/
def Frame (a b : State W) : Prop :=
  ∃ (w : W) (t : Nat → GoMap → GoMap), b = { a with world := w, heap := writeOutputs t a.heap }

/-- The outcome and the conclusion of a result. -/
def statuses (r : Option StepResult) : Option (StepStatus × StepStatus) :=
  r.map (fun x => (x.Outcome, x.Conclusion))

/-! ## A concrete backend

A small instance of the collaborators, on which the executor is evaluated.
The world is a log: the body and the setters append to it, and a callback
file whose path is logged as corrupt fails to parse. -/

/-- The concrete collaborators. -/
def demo : Collaborators (List String) where
  ToLower := fun s => String.mk (s.data.map Char.toLower)
  Join := fun a b => a ++ "/" ++ b
  IsEnvironmentCaseInsensitive := fun _ => false
  GetEnv := fun _ => [("HOME", "/root"), ("MODE", "ambient")]
  Container := fun _ => some [("MODE", "container")]
  withGithubEnv := fun _ env => assign (assign env "CI" "true") "MODE" "context"
  NewExpressionEvaluator := fun _ v => if v = "$HOME" then "/root" else v
  NewExpressionEvaluatorWithEnv := fun _ env v =>
    match index env v with
    | some x => x
    | none => v
  ExprEval := fun _ v => v
  EvalBool := fun _ _ expr _ =>
    if expr = "true" then (true, none)
    else if expr = "false" then (false, none)
    else (false, some "unexpected token")
  GetActPath := fun _ => "/act"
  Copy := fun _ _ w => w
  UpdateFromEnv := fun file w =>
    if ("corrupt " ++ file) ∈ w then ([], some ("cannot parse " ++ file))
    else ([("LAST", file)], none)
  setEnv := fun kv v rc =>
    (rc.world ++ ["env " ++ (index kv "name").getD "" ++ "=" ++ v], fun _ o => o)
  saveState := fun kv v rc =>
    (rc.world ++ ["state " ++ (index kv "name").getD "" ++ "=" ++ v], fun _ o => o)
  setOutput := fun kv v rc =>
    (rc.world, fun p o =>
      if index rc.StepResults rc.CurrentStep = some p then
        assign o ((index kv "name").getD "") v
      else o)
  UpdateExtraPath := fun file rc =>
    if ("corrupt " ++ file) ∈ rc.world then (rc.world, some ("cannot parse " ++ file))
    else (rc.world ++ ["path " ++ file], none)

/-- A step `build` with the given if-expression and continue-on-error
expression. -/
def demoStep (ifExpr continueOnError : String) : step where
  getStepModel :=
    { ID := "build", If := ifExpr, RawContinueOnError := continueOnError,
      TimeoutMinutes := "5", Env := [("MODE", "step"), ("INPUT_DIR", "HOME")] }
  getIfExpression := fun _ => ifExpr

/-- A run context in which the step `setup` was processed before. -/
def demoState : State (List String) where
  CurrentStep := "setup"
  StepResults := [("setup", 0)]
  heap := [⟨StepStatusSuccess, StepStatusSuccess, []⟩]
  steps := [⟨"setup", "", "", "", []⟩, ⟨"build", "", "", "", []⟩]
  JobID := "job1"
  JobIf := ""
  CondInserted := false
  Prev := none
  env := []
  syncfile := []
  world := []

/-- A run context whose step environment is composed: an input binding that
names a sibling variable. -/
def demoEnvState : State (List String) :=
  { demoState with env := [("HOME", "$HOME"), ("INPUT_DIR", "HOME"), ("CI", "true")] }

/-- A body that appends to the log and returns the given error. -/
def demoBody (log : List String) (err : Option error) :
    Option Int → State (List String) → Effect (List String) × Option error :=
  fun _ rc => ((rc.world ++ log, fun _ o => o), err)

/-- A run context in which the main stage of the step `build` has run, with
outcome failure and conclusion success. -/
def demoRanState : State (List String) :=
  { demoState with
    CurrentStep := "build"
    StepResults := [("setup", 0), ("build", 1)]
    heap := [⟨StepStatusSuccess, StepStatusSuccess, []⟩,
      ⟨StepStatusFailure, StepStatusSuccess, [("artifact", "a.tgz")]⟩] }

/-- A backend whose evaluator answers whether it was given the default
status check `d0`. -/
def probeFor (d0 : DefaultStatusCheck) : Collaborators (List String) :=
  { demo with EvalBool := fun _ _ _ d => (decide (d = d0), none) }

/-- A backend whose callback files hold two entries. -/
def demoFiles : Collaborators (List String) :=
  { demo with
    UpdateFromEnv := fun file w =>
      if ("corrupt " ++ file) ∈ w then ([("A", "1")], some ("cannot parse " ++ file))
      else ([("A", "1"), ("B", "2")], none) }

/-! ## Steps of the reconciliation -/

/-- The calls of the setter made for a parsed callback file: one for each
entry, with the context that holds the name alone, and the value. -/
def setterCalls (m : GoMap) : List (GoMap × String) :=
  m.map (fun kv => ([("name", kv.1)], kv.2))

/-- The first reconciliation step: the env-update file. -/
def envFileStep (C : Collaborators W) (rc : State W) : State W × Option error :=
  processRunnerEnvFileCommand C (C.Join "workflow" "envs.txt") C.setEnv rc

/-- The second reconciliation step, on the state left by the first: the state
file. -/
def stateFileStep (C : Collaborators W) (rc : State W) : State W × Option error :=
  processRunnerEnvFileCommand C (C.Join "workflow" "statecmd.txt") C.saveState
    (envFileStep C rc).1

/-- The third reconciliation step, on the state left by the second: the output
file. -/
def outputFileStep (C : Collaborators W) (rc : State W) : State W × Option error :=
  processRunnerEnvFileCommand C (C.Join "workflow" "outputcmd.txt") C.setOutput
    (stateFileStep C rc).1

/-- The fourth reconciliation step, on the state left by the third: the extra
path. -/
def extraPathStep (C : Collaborators W) (actPath : String) (rc : State W) :
    W × Option error :=
  C.UpdateExtraPath (C.Join actPath (C.Join "workflow" "pathcmd.txt")) (outputFileStep C rc).1

/-- State `b` is state `a` up to what an invocation with fresh pointer `n` may
change after its entry: the environment, the trace, the backend world, the
outputs of the results and the statuses of the result at `n`. -/
def Untouched (n : Nat) (a b : State W) : Prop :=
  b.StepResults = a.StepResults ∧ b.CurrentStep = a.CurrentStep ∧ b.Prev = a.Prev
    ∧ b.steps = a.steps ∧ b.heap.length = a.heap.length
    ∧ ∀ p, p ≠ n → statuses (b.heap.get? p) = statuses (a.heap.get? p)

/-- Environment `e` has the keys of `e0` and the values of `e0` under the keys
without the prefix `INPUT_`: what the second loop of `setupEnv` keeps of the
environment it starts from. -/
def SameOutsideInputs (e0 e : GoMap) : Prop :=
  keys e = keys e0 ∧ ∀ j, HasPrefix j "INPUT_" = false → index e j = index e0 j

/-- A run context whose step environment has an input binding that names
another input binding, visited after it. -/
def demoInputsState : State (List String) :=
  { demoState with
    env := [("INPUT_B", "HOME"), ("INPUT_A", "INPUT_B"), ("HOME", "$HOME")] }

/-! ## Maps up to the order of their entries -/

/-- Two association lists are the same map: they hold the same value, or
none, under every key. -/
def MapEq {β : Type} (a b : List (String × β)) : Prop := ∀ k, index a k = index b k

/-- No two distinct keys of the map have the same fold. -/
def FoldInjective (ToLower : String → String) (m : GoMap) : Prop :=
  ∀ k1 ∈ keys m, ∀ k2 ∈ keys m, ToLower k1 = ToLower k2 → k1 = k2

instance (ToLower : String → String) (m : GoMap) : Decidable (FoldInjective ToLower m) := by
  unfold FoldInjective
  infer_instance

/-- The entries of the list have pairwise different folds. -/
def FoldUnique (ToLower : String → String) (m : GoMap) : Prop :=
  ((keys m).map ToLower).Nodup

/-- Every entry of the table `foldKeys` holds, under a fold, a key of that
fold. -/
def Spelled (ToLower : String → String) (foldKeys : GoMap) : Prop :=
  ∀ f k, index foldKeys f = some k → ToLower k = f

/-- The same target and the same table `foldKeys`, as maps. -/
def PairEq (p q : GoMap × GoMap) : Prop := MapEq p.1 q.1 ∧ MapEq p.2 q.2

/-- The invariant of the loop of `mergeIntoMapCaseInsensitive`, on the target
and the table `foldKeys`. -/
def FoldInv (ToLower : String → String) (st : GoMap × GoMap) : Prop :=
  WF st.1 ∧ FoldInjective ToLower st.1
    ∧ (∀ k ∈ keys st.1, index st.2 (ToLower k) = some k)
    ∧ (∀ f k, index st.2 f = some k → k ∈ keys st.1 ∧ ToLower k = f)

/-! ## Properties -/

/-! ### Maps -/

theorem index_assign_self {β : Type} (m : List (String × β)) (k : String) (v : β) :
    index (assign m k v) k = some v := by
  induction m with
  | nil => simp [assign, index]
  | cons a m ih =>
    obtain ⟨k', v'⟩ := a
    by_cases h : k' = k
    · simp [assign, index, h]
    · simp [assign, index, h, ih]

theorem index_assign_other {β : Type} (m : List (String × β)) (k j : String) (v : β)
    (h : k ≠ j) : index (assign m k v) j = index m j := by
  induction m with
  | nil => simp [assign, index, h]
  | cons a m ih =>
    obtain ⟨k', v'⟩ := a
    by_cases hk : k' = k
    · subst hk; simp [assign, index, h]
    · by_cases hj : k' = j
      · simp [assign, index, hk, hj, show ¬ j = k from fun e => h e.symm]
      · simp [assign, index, hk, hj, ih]

theorem index_eq_none_iff {β : Type} (m : List (String × β)) (k : String) :
    index m k = none ↔ k ∉ keys m := by
  induction m with
  | nil => simp [index, keys]
  | cons a m ih =>
    obtain ⟨k', v'⟩ := a
    by_cases h : k' = k
    · simp [index, keys, h]
    · have h' : ¬ k = k' := fun e => h e.symm
      simpa [index, keys, h, h'] using ih

theorem assign_of_not_mem {β : Type} (m : List (String × β)) (k : String) (v : β)
    (h : k ∉ keys m) : assign m k v = m ++ [(k, v)] := by
  induction m with
  | nil => rfl
  | cons a m ih =>
    obtain ⟨k', v'⟩ := a
    have hk : ¬ k' = k := fun e => h (by simp [keys, e])
    have hm : k ∉ keys m := fun e => h (by simp [keys] at e ⊢; exact Or.inr e)
    simp [assign, hk, ih hm]

theorem assign_append_of_not_mem {β : Type} (pre l : List (String × β)) (k : String) (v x : β)
    (h : k ∉ keys pre) : assign (pre ++ (k, v) :: l) k x = pre ++ (k, x) :: l := by
  induction pre with
  | nil => simp [assign]
  | cons a pre ih =>
    obtain ⟨k', v'⟩ := a
    have hk : ¬ k' = k := fun e => h (by simp [keys, e])
    have hm : k ∉ keys pre := fun e => h (by simp [keys] at e ⊢; exact Or.inr e)
    simp [assign, hk, ih hm]

theorem keys_assign_of_mem {β : Type} (m : List (String × β)) (k : String) (v : β)
    (h : k ∈ keys m) : keys (assign m k v) = keys m := by
  induction m with
  | nil => simp [keys] at h
  | cons a m ih =>
    obtain ⟨k', v'⟩ := a
    by_cases hk : k' = k
    · simp [assign, keys, hk]
    · have hm : k ∈ keys m := by
        simp only [keys, List.map_cons, List.mem_cons] at h
        rcases h with h | h
        · exact absurd h.symm hk
        · exact h
      have := ih hm
      simp only [keys] at this
      simp [assign, keys, hk, this]

theorem WF_assign {β : Type} (m : List (String × β)) (k : String) (v : β) (h : WF m) :
    WF (assign m k v) := by
  by_cases hk : k ∈ keys m
  · unfold WF; rw [keys_assign_of_mem m k v hk]; exact h
  · unfold WF at *
    rw [assign_of_not_mem m k v hk]
    simp only [keys, List.map_append, List.map_cons, List.map_nil]
    rw [List.nodup_append]
    refine ⟨h, List.nodup_singleton _, ?_⟩
    intro a ha hb
    simp only [List.mem_singleton] at hb
    subst hb
    exact hk ha

theorem index_of_mem {β : Type} (m : List (String × β)) (k : String) (v : β) (h : WF m)
    (hm : (k, v) ∈ m) : index m k = some v := by
  induction m with
  | nil => cases hm
  | cons a m ih =>
    obtain ⟨k', v'⟩ := a
    simp only [WF, keys, List.map_cons, List.nodup_cons] at h
    rcases List.mem_cons.mp hm with e | e
    · cases e; simp [index]
    · have hk : ¬ k' = k := by
        intro e'
        subst e'
        exact h.1 (List.mem_map_of_mem Prod.fst e)
      simp only [index, hk, if_false]
      exact ih h.2 e

theorem mem_of_index {β : Type} (m : List (String × β)) (k : String) (v : β)
    (h : index m k = some v) : (k, v) ∈ m := by
  induction m with
  | nil => simp [index] at h
  | cons a m ih =>
    obtain ⟨k', v'⟩ := a
    by_cases hk : k' = k
    · simp [index, hk] at h
      simp [hk, h]
    · simp only [index, hk, if_false] at h
      exact List.mem_cons_of_mem _ (ih h)

/-- After a map is written entry by entry into a target, a key of the map
holds the map's value. -/
theorem index_foldl_assign (m target : GoMap) (k v : String) (hwf : WF m)
    (hk : index m k = some v) :
    index (m.foldl (fun t kv => assign t kv.1 kv.2) target) k = some v := by
  induction m generalizing target with
  | nil => simp [index] at hk
  | cons a m ih =>
    obtain ⟨k', v'⟩ := a
    simp only [List.foldl_cons]
    simp only [WF, keys, List.map_cons, List.nodup_cons] at hwf
    by_cases e : k' = k
    · subst e
      simp only [index, if_true, Option.some.injEq] at hk
      subst hk
      have hnot : k' ∉ keys m := hwf.1
      have key : ∀ (l : GoMap) (t : GoMap), k' ∉ keys l → index t k' = some v' →
          index (l.foldl (fun t kv => assign t kv.1 kv.2) t) k' = some v' := by
        intro l
        induction l with
        | nil => intro t _ h; exact h
        | cons b l ihl =>
          intro t hb h
          simp only [List.foldl_cons]
          apply ihl
          · intro hm; exact hb (by simp only [keys, List.map_cons] at hm ⊢
                                   exact List.mem_cons_of_mem _ hm)
          · rw [index_assign_other _ _ _ _ (fun e => hb (by simp [keys, e]))]
            exact h
      exact key m _ hnot (index_assign_self _ _ _)
    · simp only [index, e, if_false] at hk
      exact ih _ hwf.2 hk

theorem WF_foldl_assign (m target : GoMap) (h : WF target) :
    WF (m.foldl (fun t kv => assign t kv.1 kv.2) target) := by
  induction m generalizing target with
  | nil => exact h
  | cons a m ih => exact ih _ (WF_assign _ _ _ h)

/-- A loop that rewrites in place the values of the keys selected by `cond`,
over a snapshot of a well-formed map, maps the values of those keys. -/
theorem foldl_rewrite (cond : String → Bool) (f : String → String) (l pre : GoMap)
    (hwf : WF (pre ++ l)) :
    l.foldl (fun e kv => if cond kv.1 then assign e kv.1 (f kv.2) else e) (pre ++ l)
      = pre ++ l.map (fun kv => (kv.1, if cond kv.1 then f kv.2 else kv.2)) := by
  induction l generalizing pre with
  | nil => simp
  | cons a l ih =>
    obtain ⟨k, v⟩ := a
    have hnot : k ∉ keys pre := by
      intro hm
      simp only [WF, keys, List.map_append, List.map_cons] at hwf
      exact (List.nodup_append.mp hwf).2.2 hm (List.mem_cons_self _ _)
    simp only [List.foldl_cons, List.map_cons]
    by_cases hc : cond k = true
    · simp only [hc, if_true]
      rw [assign_append_of_not_mem pre l k v (f v) hnot]
      have hwf2 : WF ((pre ++ [(k, f v)]) ++ l) := by
        simpa [WF, keys] using hwf
      have := ih (pre ++ [(k, f v)]) hwf2
      simpa using this
    · simp only [hc]
      have hwf2 : WF ((pre ++ [(k, v)]) ++ l) := by
        simpa [WF, keys] using hwf
      have := ih (pre ++ [(k, v)]) hwf2
      simpa using this

theorem index_map_values {β : Type} (g : String → β → β) (m : List (String × β)) (k : String) :
    index (m.map (fun kv => (kv.1, g kv.1 kv.2))) k = (index m k).map (g k) := by
  induction m with
  | nil => rfl
  | cons a m ih =>
    obtain ⟨k', v'⟩ := a
    by_cases h : k' = k
    · subst h; simp [index]
    · simp [index, h, ih]

theorem keys_map_values {β : Type} (g : String → β → β) (m : List (String × β)) :
    keys (m.map (fun kv => (kv.1, g kv.1 kv.2))) = keys m := by
  simp [keys, List.map_map, Function.comp_def]

theorem interpolatePass1_eq (f : String → String) (env : GoMap) (hwf : WF env) :
    interpolatePass1 f env
      = env.map (fun kv => (kv.1, if ! HasPrefix kv.1 "INPUT_" then f kv.2 else kv.2)) := by
  have := foldl_rewrite (fun k => ! HasPrefix k "INPUT_") f env [] (by simpa using hwf)
  simpa [interpolatePass1] using this

/-! ### Frame of the phases -/

@[simp] theorem setupEnv_err (C : Collaborators W) (s : step) (rc : State W) :
    (setupEnv C s rc).2 = none := rfl

@[simp] theorem setupEnv_heap (C : Collaborators W) (s : step) (rc : State W) :
    (setupEnv C s rc).1.heap = rc.heap := rfl

@[simp] theorem setupEnv_StepResults (C : Collaborators W) (s : step) (rc : State W) :
    (setupEnv C s rc).1.StepResults = rc.StepResults := rfl

@[simp] theorem setupEnv_CurrentStep (C : Collaborators W) (s : step) (rc : State W) :
    (setupEnv C s rc).1.CurrentStep = rc.CurrentStep := rfl

@[simp] theorem setupEnv_world (C : Collaborators W) (s : step) (rc : State W) :
    (setupEnv C s rc).1.world = rc.world := rfl

@[simp] theorem enter_heap (s : step) (stage : stepStage) (rc : State W) :
    (enter s stage rc).1.heap = rc.heap ++ [⟨StepStatusSuccess, StepStatusSuccess, []⟩] := by
  unfold enter; split <;> rfl

@[simp] theorem enter_pointer (s : step) (stage : stepStage) (rc : State W) :
    (enter s stage rc).2 = rc.heap.length := rfl

theorem enter_StepResults_main (s : step) (rc : State W) :
    (enter s stepStageMain rc).1.StepResults
      = assign rc.StepResults s.getStepModel.ID rc.heap.length := by
  simp [enter]

theorem enter_StepResults_other (s : step) (stage : stepStage) (rc : State W)
    (h : stage ≠ stepStageMain) : (enter s stage rc).1.StepResults = rc.StepResults := by
  simp [enter, h]

@[simp] theorem atIf_heap (C : Collaborators W) (s : step) (stage : stepStage) (rc : State W) :
    (atIf C s stage rc).heap = rc.heap ++ [⟨StepStatusSuccess, StepStatusSuccess, []⟩] := by
  simp [atIf]

theorem atIf_StepResults_main (C : Collaborators W) (s : step) (rc : State W) :
    (atIf C s stepStageMain rc).StepResults
      = assign rc.StepResults s.getStepModel.ID rc.heap.length := by
  simp [atIf, enter_StepResults_main]

theorem setStatus_fresh (heap : List StepResult) (x : StepResult) (f : StepResult → StepResult) :
    setStatus (heap ++ [x]) heap.length f = heap ++ [f x] := by
  induction heap with
  | nil => rfl
  | cons a l ih => simpa [setStatus] using ih

theorem get?_fresh (heap : List StepResult) (x : StepResult) :
    (heap ++ [x]).get? heap.length = some x := by
  simp

/-- The executor, unfolded along its program points. -/
theorem runStepExecutor_eq (C : Collaborators W) (s : step) (stage : stepStage)
    (executor : Option Int → State W → Effect W × Option error) (rc : State W) :
    runStepExecutor C s stage executor rc =
      match (ifResult C s stage rc).2 with
      | some err =>
        ({ atTrace C s stage rc with
            heap := setStatus (atTrace C s stage rc).heap rc.heap.length (fun x =>
              { x with Conclusion := StepStatusFailure, Outcome := StepStatusFailure }) },
          some err)
      | none =>
        if (ifResult C s stage rc).1 = false then
          ({ atTrace C s stage rc with
              heap := setStatus (atTrace C s stage rc).heap rc.heap.length (fun x =>
                { x with Conclusion := StepStatusSkipped, Outcome := StepStatusSkipped }) },
            none)
        else
          match (bodyResult C s stage executor rc).2 with
          | none =>
            reconcile C (actPath C s stage rc) none (atReconcile C s stage executor rc)
          | some err =>
            match (continueResult C s stage executor rc).2 with
            | some parseErr =>
              ({ atContinue C s stage executor rc with
                  heap := setStatus (atContinue C s stage executor rc).heap rc.heap.length
                    (fun x => { x with Conclusion := StepStatusFailure }) }, some parseErr)
            | none =>
              reconcile C (actPath C s stage rc)
                (if (continueResult C s stage executor rc).1 then none else some err)
                (atReconcile C s stage executor rc) := by
  have hb : bodyResult C s stage executor rc
      = executor (evaluateStepTimeout (C.ExprEval (atBody C s stage rc)) s.getStepModel)
          (atBody C s stage rc) := rfl
  have hc : continueResult C s stage executor rc
      = isContinueOnError C s.getStepModel.RawContinueOnError s stage
          (atContinue C s stage executor rc) := rfl
  have hi : ifResult C s stage rc
      = isStepEnabled C (s.getIfExpression stage) s stage (atIf C s stage rc) := rfl
  rcases hif : ifResult C s stage rc with ⟨run, e⟩
  cases e with
  | some err =>
    simp only [runStepExecutor, setupEnv_err, enter_pointer]
    rw [show (setupEnv C s (enter s stage rc).1).1 = atIf C s stage rc from rfl, ← hi]
    simp only [atTrace, hif]
  | none =>
    cases run with
    | false =>
      simp only [runStepExecutor, setupEnv_err, enter_pointer]
      rw [show (setupEnv C s (enter s stage rc).1).1 = atIf C s stage rc from rfl, ← hi]
      simp [atTrace, hif]
    | true =>
      have ht : atTrace C s stage rc = { atIf C s stage rc with
          syncfile := (atIf C s stage rc).syncfile ++
            traceLines (atIf C s stage rc) s.getStepModel (previousStep rc) true } := by
        simp [atTrace, hif]
      simp only [runStepExecutor, setupEnv_err, enter_pointer]
      rw [show (setupEnv C s (enter s stage rc).1).1 = atIf C s stage rc from rfl, ← hi]
      simp only [hif, ← ht]
      rw [show C.GetActPath (atIf C s stage rc).world = actPath C s stage rc from rfl,
        show prepareFileCommands C (actPath C s stage rc) (atTrace C s stage rc)
          = atBody C s stage rc from rfl, ← hb,
        show commit (atBody C s stage rc) (bodyResult C s stage executor rc).1
          = afterBody C s stage executor rc from rfl]
      simp only [Bool.not_true, Bool.false_eq_true, if_false]
      cases hbody : (bodyResult C s stage executor rc).2 with
      | none =>
        simp only []
        simp [atReconcile, hbody]
      | some err =>
        simp only []
        show (match (continueResult C s stage executor rc).2 with
          | some parseErr => (_, some parseErr)
          | none =>
            if (continueResult C s stage executor rc).1 = true then reconcile C _ none _
            else reconcile C _ (some err) _) = _
        cases hcont : (continueResult C s stage executor rc).2 with
        | some parseErr => rfl
        | none =>
          simp only []
          cases hflag : (continueResult C s stage executor rc).1 with
          | true => simp [atReconcile, hbody, hflag]; rfl
          | false => simp [atReconcile, hbody, hflag]; rfl

/-! ### The store and the frame of the collaborators -/

theorem get?_writeOutputsFrom (t : Nat → GoMap → GoMap) (heap : List StepResult) (p i : Nat) :
    (writeOutputsFrom t p heap).get? i
      = (heap.get? i).map (fun r => { r with Outputs := t (p + i) r.Outputs }) := by
  induction heap generalizing p i with
  | nil => simp [writeOutputsFrom]
  | cons a l ih =>
    cases i with
    | zero => simp [writeOutputsFrom]
    | succ i =>
      simp only [writeOutputsFrom, List.get?_cons_succ]
      rw [ih (p + 1) i]
      congr 2
      funext r
      congr 2
      omega

theorem get?_writeOutputs (t : Nat → GoMap → GoMap) (heap : List StepResult) (i : Nat) :
    (writeOutputs t heap).get? i
      = (heap.get? i).map (fun r => { r with Outputs := t i r.Outputs }) := by
  simpa [writeOutputs] using get?_writeOutputsFrom t heap 0 i

theorem writeOutputsFrom_id (heap : List StepResult) (p : Nat) :
    writeOutputsFrom (fun _ o => o) p heap = heap := by
  induction heap generalizing p with
  | nil => rfl
  | cons a l ih => simp [writeOutputsFrom, ih]

theorem writeOutputsFrom_twice (t1 t2 : Nat → GoMap → GoMap) (heap : List StepResult) (p : Nat) :
    writeOutputsFrom t2 p (writeOutputsFrom t1 p heap)
      = writeOutputsFrom (fun i o => t2 i (t1 i o)) p heap := by
  induction heap generalizing p with
  | nil => rfl
  | cons a l ih => simp [writeOutputsFrom, ih]

theorem get?_setStatus_self (heap : List StepResult) (p : Nat) (f : StepResult → StepResult) :
    (setStatus heap p f).get? p = (heap.get? p).map f := by
  simp [setStatus, List.getElem?_modify]

theorem frame_refl (a : State W) : Frame a a :=
  ⟨a.world, fun _ o => o, by simp [writeOutputs, writeOutputsFrom_id]⟩

theorem frame_trans {a b c : State W} (hab : Frame a b) (hbc : Frame b c) : Frame a c := by
  obtain ⟨w1, t1, h1⟩ := hab
  obtain ⟨w2, t2, h2⟩ := hbc
  refine ⟨w2, fun i o => t2 i (t1 i o), ?_⟩
  rw [h2, h1]
  simp [writeOutputs, writeOutputsFrom_twice]

theorem frame_commit (a : State W) (m : Effect W) : Frame a (commit a m) :=
  ⟨m.1, m.2, rfl⟩

theorem frame_world (a : State W) (w : W) : Frame a { a with world := w } :=
  ⟨w, fun _ o => o, by simp [writeOutputs, writeOutputsFrom_id]⟩

theorem frame_StepResults {a b : State W} (h : Frame a b) : b.StepResults = a.StepResults := by
  obtain ⟨w, t, h⟩ := h
  rw [h]

theorem frame_CurrentStep {a b : State W} (h : Frame a b) : b.CurrentStep = a.CurrentStep := by
  obtain ⟨w, t, h⟩ := h
  rw [h]

theorem frame_statuses {a b : State W} (h : Frame a b) (p : Nat) :
    statuses (b.heap.get? p) = statuses (a.heap.get? p) := by
  obtain ⟨w, t, h⟩ := h
  rw [h]
  simp only [get?_writeOutputs]
  cases a.heap.get? p <;> rfl

theorem frame_recorded {a b : State W} (h : Frame a b) (id : String) :
    statuses (recorded b id) = statuses (recorded a id) := by
  unfold recorded
  rw [frame_StepResults h]
  cases index a.StepResults id with
  | none => rfl
  | some p => exact frame_statuses h p

theorem processRunnerEnvFileCommand_frame (C : Collaborators W) (fileName : String)
    (setter : GoMap → String → State W → Effect W) (rc : State W) :
    Frame rc (processRunnerEnvFileCommand C fileName setter rc).1 := by
  have key : ∀ (l : GoMap) (st : State W), Frame rc st →
      Frame rc (l.foldl (fun rc kv => commit rc (setter [("name", kv.1)] kv.2 rc)) st) := by
    intro l
    induction l with
    | nil => intro st h; exact h
    | cons a l ih =>
      intro st h
      exact ih _ (frame_trans h (frame_commit st _))
  unfold processRunnerEnvFileCommand
  simp only []
  split
  · exact frame_refl rc
  · exact key _ rc (frame_refl rc)

theorem reconcile_frame (C : Collaborators W) (path : String) (orgerr : Option error)
    (rc : State W) : Frame rc (reconcile C path orgerr rc).1 := by
  have h1 := processRunnerEnvFileCommand_frame C (C.Join "workflow" "envs.txt") C.setEnv rc
  have h2 := frame_trans h1 (processRunnerEnvFileCommand_frame C (C.Join "workflow" "statecmd.txt")
    C.saveState (processRunnerEnvFileCommand C (C.Join "workflow" "envs.txt") C.setEnv rc).1)
  have h3 := frame_trans h2 (processRunnerEnvFileCommand_frame C (C.Join "workflow" "outputcmd.txt")
    C.setOutput (processRunnerEnvFileCommand C (C.Join "workflow" "statecmd.txt") C.saveState
      (processRunnerEnvFileCommand C (C.Join "workflow" "envs.txt") C.setEnv rc).1).1)
  unfold reconcile
  simp only []
  split
  · exact h1
  · split
    · exact h2
    · split
      · exact h3
      · split
        · exact frame_trans h3 (frame_world _ _)
        · split <;> exact frame_trans h3 (frame_world _ _)

/-- What is recorded under the step's ID, when the table holds the fresh
pointer for it. -/
theorem recorded_fresh (rc : State W) (id : String) (p : Nat) (m : List (String × Nat))
    (hm : rc.StepResults = assign m id p) : recorded rc id = rc.heap.get? p := by
  simp [recorded, hm, index_assign_self]

@[simp] theorem prepareFileCommands_heap (C : Collaborators W) (path : String) (rc : State W) :
    (prepareFileCommands C path rc).heap = rc.heap := rfl

@[simp] theorem prepareFileCommands_StepResults (C : Collaborators W) (path : String)
    (rc : State W) : (prepareFileCommands C path rc).StepResults = rc.StepResults := rfl

@[simp] theorem atTrace_heap (C : Collaborators W) (s : step) (stage : stepStage)
    (rc : State W) :
    (atTrace C s stage rc).heap = rc.heap ++ [⟨StepStatusSuccess, StepStatusSuccess, []⟩] := by
  simp [atTrace]

theorem atTrace_StepResults_main (C : Collaborators W) (s : step) (rc : State W) :
    (atTrace C s stepStageMain rc).StepResults
      = assign rc.StepResults s.getStepModel.ID rc.heap.length := by
  simp [atTrace, atIf_StepResults_main]

/-- The error returned by the reconciliation: the error of the first of the
four steps that fails, and the body's result when none fails. -/
theorem reconcile_err (C : Collaborators W) (path : String) (orgerr : Option error)
    (rc : State W) :
    (reconcile C path orgerr rc).2 =
      match (reconcileErrors C path rc).findSome? id with
      | some e => some e
      | none => orgerr := by
  unfold reconcile reconcileErrors
  simp only []
  cases h1 : (processRunnerEnvFileCommand C (C.Join "workflow" "envs.txt") C.setEnv rc).2 with
  | some e => simp [List.findSome?]
  | none =>
    simp only []
    cases h2 : (processRunnerEnvFileCommand C (C.Join "workflow" "statecmd.txt") C.saveState
      (processRunnerEnvFileCommand C (C.Join "workflow" "envs.txt") C.setEnv rc).1).2 with
    | some e => simp [List.findSome?]
    | none =>
      simp only []
      cases h3 : (processRunnerEnvFileCommand C (C.Join "workflow" "outputcmd.txt") C.setOutput
        (processRunnerEnvFileCommand C (C.Join "workflow" "statecmd.txt") C.saveState
          (processRunnerEnvFileCommand C (C.Join "workflow" "envs.txt") C.setEnv rc).1).1).2 with
      | some e => simp [List.findSome?]
      | none =>
        simp only []
        cases h4 : (C.UpdateExtraPath (C.Join path (C.Join "workflow" "pathcmd.txt"))
          (processRunnerEnvFileCommand C (C.Join "workflow" "outputcmd.txt") C.setOutput
            (processRunnerEnvFileCommand C (C.Join "workflow" "statecmd.txt") C.saveState
              (processRunnerEnvFileCommand C (C.Join "workflow" "envs.txt") C.setEnv
                rc).1).1).1).2 with
        | some e => simp [List.findSome?]
        | none => cases orgerr <;> simp [List.findSome?]

theorem atBody_heap (C : Collaborators W) (s : step) (stage : stepStage) (rc : State W) :
    (atBody C s stage rc).heap = rc.heap ++ [⟨StepStatusSuccess, StepStatusSuccess, []⟩] := by
  simp [atBody]

theorem atBody_StepResults_main (C : Collaborators W) (s : step) (rc : State W) :
    (atBody C s stepStageMain rc).StepResults
      = assign rc.StepResults s.getStepModel.ID rc.heap.length := by
  simp [atBody, atTrace_StepResults_main]

theorem atReconcile_StepResults_main (C : Collaborators W) (s : step)
    (executor : Option Int → State W → Effect W × Option error) (rc : State W) :
    (atReconcile C s stepStageMain executor rc).StepResults
      = assign rc.StepResults s.getStepModel.ID rc.heap.length := by
  unfold atReconcile
  split <;> exact atBody_StepResults_main C s rc

theorem afterBody_statuses (C : Collaborators W) (s : step) (stage : stepStage)
    (executor : Option Int → State W → Effect W × Option error) (rc : State W) :
    statuses ((afterBody C s stage executor rc).heap.get? rc.heap.length)
      = some (StepStatusSuccess, StepStatusSuccess) := by
  unfold afterBody
  rw [frame_statuses (frame_commit (atBody C s stage rc) _), atBody_heap]
  simp [statuses]

theorem atContinue_statuses (C : Collaborators W) (s : step) (stage : stepStage)
    (executor : Option Int → State W → Effect W × Option error) (rc : State W) :
    statuses ((atContinue C s stage executor rc).heap.get? rc.heap.length)
      = some (StepStatusFailure, StepStatusSuccess) := by
  have h := afterBody_statuses C s stage executor rc
  simp only [atContinue, enter_pointer, get?_setStatus_self]
  cases hc : (afterBody C s stage executor rc).heap.get? rc.heap.length with
  | none => rw [hc] at h; cases h
  | some r =>
    rw [hc] at h
    simp only [statuses, Option.map_some', Option.some.injEq, Prod.mk.injEq] at h ⊢
    exact ⟨trivial, h.2⟩

theorem atReconcile_statuses_ok (C : Collaborators W) (s : step) (stage : stepStage)
    (executor : Option Int → State W → Effect W × Option error) (rc : State W)
    (hb : (bodyResult C s stage executor rc).2 = none) :
    statuses ((atReconcile C s stage executor rc).heap.get? rc.heap.length)
      = some (StepStatusSuccess, StepStatusSuccess) := by
  simp only [atReconcile, hb]
  exact afterBody_statuses C s stage executor rc

theorem atReconcile_statuses_failed (C : Collaborators W) (s : step) (stage : stepStage)
    (executor : Option Int → State W → Effect W × Option error) (rc : State W) (e : error)
    (hb : (bodyResult C s stage executor rc).2 = some e) :
    statuses ((atReconcile C s stage executor rc).heap.get? rc.heap.length)
      = some (StepStatusFailure,
          if (continueResult C s stage executor rc).1 then StepStatusSuccess
          else StepStatusFailure) := by
  have h := atContinue_statuses C s stage executor rc
  simp only [atReconcile, hb, enter_pointer, get?_setStatus_self]
  cases hc : (atContinue C s stage executor rc).heap.get? rc.heap.length with
  | none => rw [hc] at h; cases h
  | some r =>
    rw [hc] at h
    simp only [statuses, Option.map_some', Option.some.injEq, Prod.mk.injEq] at h ⊢
    exact ⟨h.1, trivial⟩

/-- The statuses recorded at stage Main after the reconciliation are those
of the step result on which it started. -/
theorem reconcile_statuses_main (C : Collaborators W) (s : step)
    (executor : Option Int → State W → Effect W × Option error) (rc : State W)
    (path : String) (orgerr : Option error) :
    statuses (recorded (reconcile C path orgerr
        (atReconcile C s stepStageMain executor rc)).1 s.getStepModel.ID)
      = statuses ((atReconcile C s stepStageMain executor rc).heap.get? rc.heap.length) := by
  rw [frame_recorded (reconcile_frame C path orgerr _),
    recorded_fresh _ _ _ _ (atReconcile_StepResults_main C s executor rc)]

/-! ### The run protocol -/

/-- C1. At stage Main, when the if-expression evaluates to false without
error, the executor returns no error, the result recorded under the step's ID
has outcome and conclusion skipped and no outputs, and the body is not
invoked: the state and error returned are the same for every body. -/
theorem skip_at_main (C : Collaborators W) (s : step)
    (executor : Option Int → State W → Effect W × Option error) (rc : State W)
    (hif : ifResult C s stepStageMain rc = (false, none)) :
    (runStepExecutor C s stepStageMain executor rc).2 = none
    ∧ recorded (runStepExecutor C s stepStageMain executor rc).1 s.getStepModel.ID
        = some ⟨StepStatusSkipped, StepStatusSkipped, []⟩
    ∧ ∀ body, runStepExecutor C s stepStageMain body rc
        = runStepExecutor C s stepStageMain executor rc := by
  have h : ∀ body, runStepExecutor C s stepStageMain body rc =
      ({ atTrace C s stepStageMain rc with
          heap := setStatus (atTrace C s stepStageMain rc).heap rc.heap.length (fun x =>
            { x with Conclusion := StepStatusSkipped, Outcome := StepStatusSkipped }) },
        none) := by
    intro body
    rw [runStepExecutor_eq, hif]
    rfl
  refine ⟨by rw [h], ?_, fun body => by rw [h, h]⟩
  rw [h]
  simp [recorded, atTrace_StepResults_main, index_assign_self, setStatus_fresh]

theorem skip_at_main_witness :
    ifResult demo (demoStep "false" "") stepStageMain demoState = (false, none)
    ∧ (runStepExecutor demo (demoStep "false" "") stepStageMain (demoBody ["ran"] none)
        demoState).2 = none
    ∧ recorded (runStepExecutor demo (demoStep "false" "") stepStageMain (demoBody ["ran"] none)
        demoState).1 "build" = some ⟨StepStatusSkipped, StepStatusSkipped, []⟩ :=
  have h := skip_at_main demo (demoStep "false" "") (demoBody ["ran"] none) demoState
    (by decide)
  ⟨by decide, h.1, h.2.1⟩

/-- C2. At stage Main, when the step is enabled, the body returns an error,
the continue-on-error expression evaluates to true and the four
reconciliation steps succeed, the executor returns no error and the recorded
result has outcome failure and conclusion success. -/
theorem continue_on_error_suppresses (C : Collaborators W) (s : step)
    (executor : Option Int → State W → Effect W × Option error) (rc : State W) (e : error)
    (hif : ifResult C s stepStageMain rc = (true, none))
    (hbody : (bodyResult C s stepStageMain executor rc).2 = some e)
    (hcont : continueResult C s stepStageMain executor rc = (true, none))
    (hrec : reconcileResult C s stepStageMain executor rc = [none, none, none, none]) :
    (runStepExecutor C s stepStageMain executor rc).2 = none
    ∧ statuses (recorded (runStepExecutor C s stepStageMain executor rc).1 s.getStepModel.ID)
        = some (StepStatusFailure, StepStatusSuccess) := by
  have h : runStepExecutor C s stepStageMain executor rc
      = reconcile C (actPath C s stepStageMain rc) none
          (atReconcile C s stepStageMain executor rc) := by
    rw [runStepExecutor_eq, hif]
    simp [hbody, hcont]
  unfold reconcileResult at hrec
  rw [h, reconcile_err, reconcile_statuses_main, hrec,
    atReconcile_statuses_failed C s stepStageMain executor rc e hbody, hcont]
  exact ⟨rfl, rfl⟩

theorem continue_on_error_suppresses_witness :
    (runStepExecutor demo (demoStep "true" "true") stepStageMain
        (demoBody ["ran"] (some "exit status 1")) demoState).2 = none
    ∧ statuses (recorded (runStepExecutor demo (demoStep "true" "true") stepStageMain
        (demoBody ["ran"] (some "exit status 1")) demoState).1 "build")
        = some (StepStatusFailure, StepStatusSuccess) :=
  continue_on_error_suppresses demo (demoStep "true" "true")
    (demoBody ["ran"] (some "exit status 1")) demoState "exit status 1"
    (by decide) (by decide) (by decide) (by decide)

/-- C3. At stage Main, when the step is enabled and the four reconciliation
steps succeed: if the body returns an error and the continue-on-error
expression evaluates to false (as the blank expression always does), the
executor returns the body's error itself and the recorded result has outcome
and conclusion failure; if the body returns no error, the executor returns no
error and the recorded result has outcome and conclusion success. -/
theorem body_result_returned (C : Collaborators W) (s : step)
    (executor : Option Int → State W → Effect W × Option error) (rc : State W)
    (hif : ifResult C s stepStageMain rc = (true, none))
    (hrec : reconcileResult C s stepStageMain executor rc = [none, none, none, none]) :
    (∀ e, (bodyResult C s stepStageMain executor rc).2 = some e →
      ((TrimSpace s.getStepModel.RawContinueOnError).utf8ByteSize = 0 ∨
        continueResult C s stepStageMain executor rc = (false, none)) →
      (runStepExecutor C s stepStageMain executor rc).2 = some e
      ∧ statuses (recorded (runStepExecutor C s stepStageMain executor rc).1 s.getStepModel.ID)
          = some (StepStatusFailure, StepStatusFailure))
    ∧ ((bodyResult C s stepStageMain executor rc).2 = none →
      (runStepExecutor C s stepStageMain executor rc).2 = none
      ∧ statuses (recorded (runStepExecutor C s stepStageMain executor rc).1 s.getStepModel.ID)
          = some (StepStatusSuccess, StepStatusSuccess)) := by
  unfold reconcileResult at hrec
  constructor
  · intro e hbody hcont'
    have hcont : continueResult C s stepStageMain executor rc = (false, none) := by
      rcases hcont' with h | h
      · simp [continueResult, isContinueOnError, h]
      · exact h
    have h : runStepExecutor C s stepStageMain executor rc
        = reconcile C (actPath C s stepStageMain rc) (some e)
            (atReconcile C s stepStageMain executor rc) := by
      rw [runStepExecutor_eq, hif]
      simp [hbody, hcont]
    rw [h, reconcile_err, reconcile_statuses_main, hrec,
      atReconcile_statuses_failed C s stepStageMain executor rc e hbody, hcont]
    exact ⟨rfl, rfl⟩
  · intro hbody
    have h : runStepExecutor C s stepStageMain executor rc
        = reconcile C (actPath C s stepStageMain rc) none
            (atReconcile C s stepStageMain executor rc) := by
      rw [runStepExecutor_eq, hif]
      simp [hbody]
    rw [h, reconcile_err, reconcile_statuses_main, hrec,
      atReconcile_statuses_ok C s stepStageMain executor rc hbody]
    exact ⟨rfl, rfl⟩

theorem body_result_returned_witness :
    ((runStepExecutor demo (demoStep "true" "  ") stepStageMain
        (demoBody ["ran"] (some "exit status 1")) demoState).2 = some "exit status 1"
      ∧ statuses (recorded (runStepExecutor demo (demoStep "true" "  ") stepStageMain
          (demoBody ["ran"] (some "exit status 1")) demoState).1 "build")
          = some (StepStatusFailure, StepStatusFailure))
    ∧ ((runStepExecutor demo (demoStep "true" "false") stepStageMain
        (demoBody ["ran"] (some "exit status 1")) demoState).2 = some "exit status 1"
      ∧ statuses (recorded (runStepExecutor demo (demoStep "true" "false") stepStageMain
          (demoBody ["ran"] (some "exit status 1")) demoState).1 "build")
          = some (StepStatusFailure, StepStatusFailure))
    ∧ ((runStepExecutor demo (demoStep "true" "") stepStageMain
        (demoBody ["ran"] none) demoState).2 = none
      ∧ statuses (recorded (runStepExecutor demo (demoStep "true" "") stepStageMain
          (demoBody ["ran"] none) demoState).1 "build")
          = some (StepStatusSuccess, StepStatusSuccess)) :=
  ⟨(body_result_returned demo (demoStep "true" "  ")
      (demoBody ["ran"] (some "exit status 1")) demoState (by decide) (by decide)).1
      "exit status 1" (by decide) (Or.inl (by decide)),
    (body_result_returned demo (demoStep "true" "false")
      (demoBody ["ran"] (some "exit status 1")) demoState (by decide) (by decide)).1
      "exit status 1" (by decide) (Or.inr (by decide)),
    (body_result_returned demo (demoStep "true" "")
      (demoBody ["ran"] none) demoState (by decide) (by decide)).2 (by decide)⟩

/-- C4. For a step that ran (enabled, and the continue-on-error expression,
if evaluated, gave no error), at every stage: when one of the four
reconciliation steps fails, the executor returns the error of the first one
that fails, whatever the body returned and whether or not its error was
suppressed. -/
theorem reconcile_failure_returned (C : Collaborators W) (s : step) (stage : stepStage)
    (executor : Option Int → State W → Effect W × Option error) (rc : State W) (e : error)
    (hif : ifResult C s stage rc = (true, none))
    (hcont : (bodyResult C s stage executor rc).2 = none
      ∨ (continueResult C s stage executor rc).2 = none)
    (hfail : (reconcileResult C s stage executor rc).findSome? id = some e) :
    (runStepExecutor C s stage executor rc).2 = some e := by
  have h : ∃ orgerr, runStepExecutor C s stage executor rc
      = reconcile C (actPath C s stage rc) orgerr (atReconcile C s stage executor rc) := by
    rw [runStepExecutor_eq, hif]
    cases hbody : (bodyResult C s stage executor rc).2 with
    | none => exact ⟨none, by simp⟩
    | some b =>
      have hc : (continueResult C s stage executor rc).2 = none := by
        rcases hcont with h | h
        · rw [hbody] at h; cases h
        · exact h
      exact ⟨_, by simp [hc]; rfl⟩
  obtain ⟨orgerr, h⟩ := h
  unfold reconcileResult at hfail
  rw [h, reconcile_err, hfail]

theorem reconcile_failure_returned_witness :
    (runStepExecutor demo (demoStep "true" "") stepStageMain
        (demoBody ["corrupt /act/workflow/outputcmd.txt", "corrupt /act/workflow/pathcmd.txt"]
          none) demoState).2 = some "cannot parse /act/workflow/outputcmd.txt"
    ∧ (runStepExecutor demo (demoStep "true" "true") stepStageMain
        (demoBody ["corrupt /act/workflow/statecmd.txt"] (some "exit status 1")) demoState).2
        = some "cannot parse /act/workflow/statecmd.txt"
    ∧ (runStepExecutor demo (demoStep "true" "false") stepStagePost
        (demoBody ["corrupt /act/workflow/pathcmd.txt"] (some "exit status 1")) demoState).2
        = some "cannot parse /act/workflow/pathcmd.txt" :=
  ⟨reconcile_failure_returned demo (demoStep "true" "") stepStageMain
      (demoBody ["corrupt /act/workflow/outputcmd.txt", "corrupt /act/workflow/pathcmd.txt"]
        none) demoState _ (by decide) (Or.inl (by decide)) (by decide),
    reconcile_failure_returned demo (demoStep "true" "true") stepStageMain
      (demoBody ["corrupt /act/workflow/statecmd.txt"] (some "exit status 1")) demoState _
      (by decide) (Or.inr (by decide)) (by decide),
    reconcile_failure_returned demo (demoStep "true" "false") stepStagePost
      (demoBody ["corrupt /act/workflow/pathcmd.txt"] (some "exit status 1")) demoState _
      (by decide) (Or.inr (by decide)) (by decide)⟩

/-- C5 (amended). At stage Main, when the evaluation of the if-expression
fails, the executor returns the error of `isStepEnabled`, the body is not
invoked (the state and error returned are the same for every body), and the
result recorded under the step's ID is marked: outcome and conclusion are
failure. -/
theorem if_error_marks_failure (C : Collaborators W) (s : step)
    (executor : Option Int → State W → Effect W × Option error) (rc : State W) (e : error)
    (hif : (C.EvalBool (atIf C s stepStageMain rc) s (s.getIfExpression stepStageMain)
      DefaultStatusCheckSuccess).2 = some e) :
    (runStepExecutor C s stepStageMain executor rc).2
        = some ("  ❌  Error in if-expression: \"if: " ++ s.getIfExpression stepStageMain
            ++ "\" (" ++ e ++ ")")
    ∧ recorded (runStepExecutor C s stepStageMain executor rc).1 s.getStepModel.ID
        = some ⟨StepStatusFailure, StepStatusFailure, []⟩
    ∧ ∀ body, runStepExecutor C s stepStageMain body rc
        = runStepExecutor C s stepStageMain executor rc := by
  have hr : ifResult C s stepStageMain rc
      = (false, some ("  ❌  Error in if-expression: \"if: " ++ s.getIfExpression stepStageMain
            ++ "\" (" ++ e ++ ")")) := by
    have hne : ¬ (stepStageMain = stepStagePost) := by decide
    simp only [ifResult, isStepEnabled, hne, if_false, hif]
  have h : ∀ body, runStepExecutor C s stepStageMain body rc =
      ({ atTrace C s stepStageMain rc with
          heap := setStatus (atTrace C s stepStageMain rc).heap rc.heap.length (fun x =>
            { x with Conclusion := StepStatusFailure, Outcome := StepStatusFailure }) },
        some ("  ❌  Error in if-expression: \"if: " ++ s.getIfExpression stepStageMain
            ++ "\" (" ++ e ++ ")")) := by
    intro body
    rw [runStepExecutor_eq, hr]
  refine ⟨by rw [h], ?_, fun body => by rw [h, h]⟩
  rw [h]
  simp [recorded, atTrace_StepResults_main, index_assign_self, setStatus_fresh]

theorem if_error_marks_failure_witness :
    (runStepExecutor demo (demoStep "oops" "") stepStageMain (demoBody ["ran"] none)
        demoState).2
        = some "  ❌  Error in if-expression: \"if: oops\" (unexpected token)"
    ∧ recorded (runStepExecutor demo (demoStep "oops" "") stepStageMain (demoBody ["ran"] none)
        demoState).1 "build" = some ⟨StepStatusFailure, StepStatusFailure, []⟩ :=
  have h := if_error_marks_failure demo (demoStep "oops" "") (demoBody ["ran"] none) demoState
    "unexpected token" (by decide)
  ⟨h.1, h.2.1⟩

/-- C5 as stated fails: on a step whose if-expression does not evaluate, the
result recorded at stage Main is not left as initialized. -/
theorem if_error_result_counterexample :
    (demo.EvalBool (atIf demo (demoStep "oops" "") stepStageMain demoState)
        (demoStep "oops" "") "oops" DefaultStatusCheckSuccess).2 = some "unexpected token"
    ∧ ¬ (statuses (recorded (runStepExecutor demo (demoStep "oops" "") stepStageMain
          (demoBody ["ran"] none) demoState).1 "build")
        = some (StepStatusSuccess, StepStatusSuccess)) := by
  decide

/-- C6. At every stage, when the step is enabled, the body returns an error
and the evaluation of the continue-on-error expression fails, the executor
returns the error of `isContinueOnError`, the step result of the invocation
has outcome and conclusion failure (at stage Main it is the result recorded
under the step's ID), and no reconciliation step is performed: the state
returned is the one on which the expression was evaluated, up to the
conclusion, and its backend world is the one the body left. -/
theorem continue_on_error_failure (C : Collaborators W) (s : step) (stage : stepStage)
    (executor : Option Int → State W → Effect W × Option error) (rc : State W) (e p : error)
    (hif : ifResult C s stage rc = (true, none))
    (hbody : (bodyResult C s stage executor rc).2 = some e)
    (hcont : (continueResult C s stage executor rc).2 = some p) :
    (runStepExecutor C s stage executor rc).2 = some p
    ∧ statuses ((runStepExecutor C s stage executor rc).1.heap.get? rc.heap.length)
        = some (StepStatusFailure, StepStatusFailure)
    ∧ (stage = stepStageMain →
        statuses (recorded (runStepExecutor C s stage executor rc).1 s.getStepModel.ID)
          = some (StepStatusFailure, StepStatusFailure))
    ∧ (runStepExecutor C s stage executor rc).1.world = (bodyResult C s stage executor rc).1.1
    ∧ (runStepExecutor C s stage executor rc).1 =
        { atContinue C s stage executor rc with
          heap := setStatus (atContinue C s stage executor rc).heap rc.heap.length
            (fun x => { x with Conclusion := StepStatusFailure }) } := by
  have h : runStepExecutor C s stage executor rc =
      ({ atContinue C s stage executor rc with
          heap := setStatus (atContinue C s stage executor rc).heap rc.heap.length
            (fun x => { x with Conclusion := StepStatusFailure }) }, some p) := by
    rw [runStepExecutor_eq, hif]
    simp [hbody, hcont]
  have hst : statuses ((setStatus (atContinue C s stage executor rc).heap rc.heap.length
      (fun x => { x with Conclusion := StepStatusFailure })).get? rc.heap.length)
      = some (StepStatusFailure, StepStatusFailure) := by
    have h0 := atContinue_statuses C s stage executor rc
    rw [get?_setStatus_self]
    cases hc : (atContinue C s stage executor rc).heap.get? rc.heap.length with
    | none => rw [hc] at h0; cases h0
    | some r =>
      rw [hc] at h0
      simp only [statuses, Option.map_some', Option.some.injEq, Prod.mk.injEq] at h0 ⊢
      exact ⟨h0.1, trivial⟩
  rw [h]
  refine ⟨rfl, hst, ?_, rfl, rfl⟩
  intro hs
  subst hs
  have hidx : index (atContinue C s stepStageMain executor rc).StepResults s.getStepModel.ID
      = some rc.heap.length := by
    rw [show (atContinue C s stepStageMain executor rc).StepResults
      = (atBody C s stepStageMain rc).StepResults from rfl, atBody_StepResults_main,
      index_assign_self]
  simp only [recorded, hidx]
  exact hst

theorem continue_on_error_failure_witness :
    (runStepExecutor demo (demoStep "true" "oops") stepStageMain
        (demoBody ["ran"] (some "exit status 1")) demoState).2
        = some ("  ❌  Error in continue-on-error-expression: \"continue-on-error: oops\" "
            ++ "(unexpected token)")
    ∧ statuses (recorded (runStepExecutor demo (demoStep "true" "oops") stepStageMain
        (demoBody ["ran"] (some "exit status 1")) demoState).1 "build")
        = some (StepStatusFailure, StepStatusFailure)
    ∧ (runStepExecutor demo (demoStep "true" "oops") stepStageMain
        (demoBody ["ran"] (some "exit status 1")) demoState).1.world = ["ran"] :=
  have h := continue_on_error_failure demo (demoStep "true" "oops") stepStageMain
    (demoBody ["ran"] (some "exit status 1")) demoState "exit status 1"
    ("  ❌  Error in continue-on-error-expression: \"continue-on-error: oops\" "
      ++ "(unexpected token)") (by decide) (by decide) (by decide)
  ⟨h.1, h.2.2.1 rfl, h.2.2.2.1⟩

/-! ### Conditions -/

/-- A string is empty after trimming exactly when all its characters are
white space. -/
theorem TrimSpace_eq_empty_iff (expr : String) :
    TrimSpace expr = "" ↔ ∀ c ∈ expr.data, IsSpace c = true := by
  unfold TrimSpace
  constructor
  · intro h
    have h1 : ((expr.data.dropWhile IsSpace).reverse.dropWhile IsSpace).reverse = [] :=
      congrArg String.data h
    have h2 : (expr.data.dropWhile IsSpace).reverse.dropWhile IsSpace = [] := by
      simpa using h1
    rw [List.dropWhile_eq_nil_iff] at h2
    by_contra hne
    have h3 : expr.data.dropWhile IsSpace ≠ [] := by
      intro h4
      exact hne (List.dropWhile_eq_nil_iff.mp h4)
    have h5 := List.head_dropWhile_not IsSpace expr.data h3
    have h6 := h2 _ (List.mem_reverse.mpr (List.head_mem h3))
    rw [h6] at h5
    cases h5
  · intro h
    rw [List.dropWhile_eq_nil_iff.mpr h]
    rfl

/-- C7. For an expression that is empty after trimming white space (the empty
string and every string of white space), `isContinueOnError` returns false
and no error for all collaborators, steps, stages and run contexts; the
evaluator, a collaborator, has no part in the result. -/
theorem blank_continue_on_error (expr : String) (hblank : TrimSpace expr = "") :
    (∀ c ∈ expr.data, IsSpace c = true)
    ∧ ∀ (C : Collaborators W) (s : step) (stage : stepStage) (rc : State W),
        isContinueOnError C expr s stage rc = (false, none) := by
  refine ⟨(TrimSpace_eq_empty_iff expr).mp hblank, ?_⟩
  intro C s stage rc
  unfold isContinueOnError
  rw [hblank]
  rfl

theorem blank_continue_on_error_witness :
    TrimSpace " \t\n" = ""
    ∧ isContinueOnError demo " \t\n" (demoStep "true" " \t\n") stepStagePost demoState
        = (false, none)
    ∧ isContinueOnError demo "" (demoStep "true" "") stepStageMain demoState = (false, none) :=
  ⟨by decide,
    (blank_continue_on_error " \t\n" (by decide)).2 demo (demoStep "true" " \t\n")
      stepStagePost demoState,
    (blank_continue_on_error "" (by decide)).2 demo (demoStep "true" "") stepStageMain
      demoState⟩

/-! ### Environment -/

theorem WF_map_values {β : Type} (g : String → β → β) (m : List (String × β)) (h : WF m) :
    WF (m.map (fun kv => (kv.1, g kv.1 kv.2))) := by
  unfold WF
  rw [keys_map_values]
  exact h

theorem WF_interpolatePass1 (f : String → String) (env : GoMap) (hwf : WF env) :
    WF (interpolatePass1 f env) := by
  rw [interpolatePass1_eq f env hwf]
  exact WF_map_values (fun k v => if ! HasPrefix k "INPUT_" then f v else v) env hwf

theorem afterPass1_env (C : Collaborators W) (rc : State W) (hwf : WF rc.env) :
    (afterPass1 C rc).env = rc.env.map (fun kv =>
      (kv.1, if ! HasPrefix kv.1 "INPUT_" then C.NewExpressionEvaluator rc kv.2 else kv.2)) :=
  interpolatePass1_eq _ _ hwf

theorem index_afterPass1 (C : Collaborators W) (rc : State W) (hwf : WF rc.env) (k : String) :
    index (afterPass1 C rc).env k = (index rc.env k).map (fun v =>
      if ! HasPrefix k "INPUT_" then C.NewExpressionEvaluator rc v else v) := by
  rw [afterPass1_env C rc hwf]
  exact index_map_values (fun k v =>
    if ! HasPrefix k "INPUT_" then C.NewExpressionEvaluator rc v else v) rc.env k

theorem keys_afterPass1 (C : Collaborators W) (rc : State W) (hwf : WF rc.env) :
    keys (afterPass1 C rc).env = keys rc.env := by
  rw [afterPass1_env C rc hwf]
  exact keys_map_values (fun k v =>
    if ! HasPrefix k "INPUT_" then C.NewExpressionEvaluator rc v else v) rc.env

theorem sameOutsideInputs_refl (e : GoMap) : SameOutsideInputs e e :=
  ⟨rfl, fun _ _ => rfl⟩

/-- One visit of the second loop keeps the keys and the values outside the
input bindings. -/
theorem sameOutsideInputs_step (ev : GoMap → String → String) (e0 e : GoMap)
    (kv : String × String) (h : SameOutsideInputs e0 e) (hk : kv.1 ∈ keys e0) :
    SameOutsideInputs e0
      (if HasPrefix kv.1 "INPUT_" then assign e kv.1 (ev e kv.2) else e) := by
  cases hp : HasPrefix kv.1 "INPUT_" with
  | false => simpa using h
  | true =>
    simp only [if_true]
    refine ⟨?_, ?_⟩
    · rw [keys_assign_of_mem e kv.1 _ (by rw [h.1]; exact hk)]
      exact h.1
    · intro j hj
      have hne : kv.1 ≠ j := by
        intro e'
        rw [e', hj] at hp
        cases hp
      rw [index_assign_other _ _ _ _ hne]
      exact h.2 j hj

theorem sameOutsideInputs_foldl (ev : GoMap → String → String) (e0 : GoMap) (l : GoMap)
    (e : GoMap) (h : SameOutsideInputs e0 e) (hl : ∀ kv ∈ l, kv.1 ∈ keys e0) :
    SameOutsideInputs e0 (l.foldl
      (fun e kv => if HasPrefix kv.1 "INPUT_" then assign e kv.1 (ev e kv.2) else e) e) := by
  induction l generalizing e with
  | nil => exact h
  | cons a l ih =>
    exact ih _ (sameOutsideInputs_step ev e0 e a h (hl a (List.mem_cons_self _ _)))
      (fun kv hkv => hl kv (List.mem_cons_of_mem _ hkv))

theorem index_pass2_of_not_mem (ev : GoMap → String → String) (l : GoMap) (e : GoMap)
    (k : String) (hk : k ∉ keys l) :
    index (l.foldl
      (fun e kv => if HasPrefix kv.1 "INPUT_" then assign e kv.1 (ev e kv.2) else e) e) k
      = index e k := by
  induction l generalizing e with
  | nil => rfl
  | cons a l ih =>
    have hne : a.1 ≠ k := fun e' => hk (by simp [keys, e'])
    have hl : k ∉ keys l := fun hm => hk (by
      simp only [keys, List.map_cons] at hm ⊢
      exact List.mem_cons_of_mem _ hm)
    rw [List.foldl_cons, ih _ hl]
    split
    · exact index_assign_other _ _ _ _ hne
    · rfl

/-- The value the second loop leaves under an input binding: the evaluator's
interpolation of the value of the binding, read on the environment of the
visit, which has the keys and the values outside the input bindings of the
environment the loop started from. -/
theorem index_pass2_input (ev : GoMap → String → String) (e0 : GoMap) (l : GoMap)
    (e : GoMap) (k v : String) (hwf : WF l) (hmem : (k, v) ∈ l)
    (hp : HasPrefix k "INPUT_" = true) (hl : ∀ kv ∈ l, kv.1 ∈ keys e0)
    (h : SameOutsideInputs e0 e) (he : index e k = some v) :
    ∃ e', SameOutsideInputs e0 e' ∧ index e' k = some v
      ∧ index (l.foldl
          (fun e kv => if HasPrefix kv.1 "INPUT_" then assign e kv.1 (ev e kv.2) else e) e) k
        = some (ev e' v) := by
  induction l generalizing e with
  | nil => cases hmem
  | cons a l ih =>
    simp only [WF, keys, List.map_cons, List.nodup_cons] at hwf
    rcases List.mem_cons.mp hmem with e1 | e1
    · subst e1
      refine ⟨e, h, he, ?_⟩
      rw [List.foldl_cons, index_pass2_of_not_mem ev l _ k hwf.1]
      simp only [hp, if_true]
      exact index_assign_self _ _ _
    · have hne : a.1 ≠ k := by
        intro e'
        apply hwf.1
        rw [e']
        exact List.mem_map_of_mem Prod.fst e1
      rw [List.foldl_cons]
      apply ih _ hwf.2 e1 (fun kv hkv => hl kv (List.mem_cons_of_mem _ hkv))
        (sameOutsideInputs_step ev e0 e a h (hl a (List.mem_cons_self _ _)))
      split
      · rw [index_assign_other _ _ _ _ hne]
        exact he
      · exact he

theorem sameOutsideInputs_interpolateEnv (C : Collaborators W) (rc : State W) :
    SameOutsideInputs (afterPass1 C rc).env (interpolateEnv C rc).env :=
  sameOutsideInputs_foldl _ _ _ _ (sameOutsideInputs_refl _)
    (fun _ hkv => List.mem_map_of_mem Prod.fst hkv)

theorem index_interpolateEnv_input (C : Collaborators W) (rc : State W) (hwf : WF rc.env)
    (k v : String) (hk : index rc.env k = some v) (hp : HasPrefix k "INPUT_" = true) :
    ∃ e, SameOutsideInputs (afterPass1 C rc).env e ∧ index e k = some v
      ∧ index (interpolateEnv C rc).env k
        = some (C.NewExpressionEvaluatorWithEnv (afterPass1 C rc) e v) := by
  have h1 : index (afterPass1 C rc).env k = some v := by
    rw [index_afterPass1 C rc hwf, hk]
    simp [hp]
  exact index_pass2_input (C.NewExpressionEvaluatorWithEnv (afterPass1 C rc))
    (afterPass1 C rc).env (afterPass1 C rc).env (afterPass1 C rc).env k v
    (WF_interpolatePass1 _ _ hwf) (mem_of_index _ _ _ h1) hp
    (fun kv hkv => List.mem_map_of_mem Prod.fst hkv) (sameOutsideInputs_refl _) h1

theorem index_interpolateEnv_other (C : Collaborators W) (rc : State W) (hwf : WF rc.env)
    (k v : String) (hk : index rc.env k = some v) (hp : HasPrefix k "INPUT_" = false) :
    index (interpolateEnv C rc).env k = some (C.NewExpressionEvaluator rc v) := by
  rw [(sameOutsideInputs_interpolateEnv C rc).2 k hp, index_afterPass1 C rc hwf, hk]
  simp [hp]

/-- C10 (amended). On a well-formed composed environment, the two passes of
`setupEnv` keep the key set; a key without the prefix `INPUT_` ends with the
first evaluator's interpolation of its value; a key with the prefix ends with
the second evaluator's interpolation of its value, read on the environment as
it stands when the key is visited.  That environment has the keys of the
composed one, holds under every key without the prefix its value after the
first pass, and under the visited key its composed value; so when the
interpolation does not depend on the other input bindings, it is the
interpolation on the environment left by the first pass. -/
theorem two_pass_interpolation (C : Collaborators W) (rc : State W) (hwf : WF rc.env) :
    keys (interpolateEnv C rc).env = keys rc.env
    ∧ (∀ k v, index rc.env k = some v → HasPrefix k "INPUT_" = false →
        index (interpolateEnv C rc).env k = some (C.NewExpressionEvaluator rc v))
    ∧ (∀ k v, index rc.env k = some v → HasPrefix k "INPUT_" = true →
        ∃ e, SameOutsideInputs (afterPass1 C rc).env e ∧ index e k = some v
          ∧ index (interpolateEnv C rc).env k
            = some (C.NewExpressionEvaluatorWithEnv (afterPass1 C rc) e v))
    ∧ (∀ e, SameOutsideInputs (afterPass1 C rc).env e →
        keys e = keys rc.env
        ∧ ∀ k v, index rc.env k = some v → HasPrefix k "INPUT_" = false →
            index e k = some (C.NewExpressionEvaluator rc v))
    ∧ (∀ k v, index rc.env k = some v → HasPrefix k "INPUT_" = true →
        (∀ e, SameOutsideInputs (afterPass1 C rc).env e → index e k = some v →
          C.NewExpressionEvaluatorWithEnv (afterPass1 C rc) e v
            = C.NewExpressionEvaluatorWithEnv (afterPass1 C rc) (afterPass1 C rc).env v) →
        index (interpolateEnv C rc).env k
          = some (C.NewExpressionEvaluatorWithEnv (afterPass1 C rc) (afterPass1 C rc).env v)) := by
  refine ⟨?_, ?_, ?_, ?_, ?_⟩
  · rw [(sameOutsideInputs_interpolateEnv C rc).1, keys_afterPass1 C rc hwf]
  · intro k v hk hp
    exact index_interpolateEnv_other C rc hwf k v hk hp
  · intro k v hk hp
    exact index_interpolateEnv_input C rc hwf k v hk hp
  · intro e he
    refine ⟨by rw [he.1, keys_afterPass1 C rc hwf], ?_⟩
    intro k v hk hp
    rw [he.2 k hp, index_afterPass1 C rc hwf, hk]
    simp [hp]
  · intro k v hk hp hfree
    obtain ⟨e, he, hek, hfin⟩ := index_interpolateEnv_input C rc hwf k v hk hp
    rw [hfin, hfree e he hek]

theorem two_pass_interpolation_witness :
    keys (interpolateEnv demo demoEnvState).env = ["HOME", "INPUT_DIR", "CI"]
    ∧ index (interpolateEnv demo demoEnvState).env "HOME" = some "/root"
    ∧ index (interpolateEnv demo demoEnvState).env "INPUT_DIR" = some "/root" :=
  have h := two_pass_interpolation demo demoEnvState (by decide)
  ⟨h.1, h.2.1 "HOME" "$HOME" (by decide) (by decide),
    h.2.2.2.2 "INPUT_DIR" "HOME" (by decide) (by decide)
      (fun e he _ => by
        show (match index e "HOME" with | some x => x | none => "HOME")
          = (match index (afterPass1 demo demoEnvState).env "HOME" with
            | some x => x | none => "HOME")
        rw [he.2 "HOME" (by decide)])⟩

/-- C10 as stated fails: an input binding that names another input binding,
visited before it, ends with the interpolation on the environment of its
visit, not on the environment left by the first pass. -/
theorem two_pass_frozen_counterexample :
    index demoInputsState.env "INPUT_A" = some "INPUT_B"
    ∧ demo.NewExpressionEvaluatorWithEnv (afterPass1 demo demoInputsState)
        (afterPass1 demo demoInputsState).env "INPUT_B" = "HOME"
    ∧ index (interpolateEnv demo demoInputsState).env "INPUT_A" = some "/root"
    ∧ ¬ (index (interpolateEnv demo demoInputsState).env "INPUT_A"
        = some (demo.NewExpressionEvaluatorWithEnv (afterPass1 demo demoInputsState)
            (afterPass1 demo demoInputsState).env "INPUT_B")) := by
  decide

theorem composeEnv_env (C : Collaborators W) (s : step) (rc : State W)
    (hcs : C.IsEnvironmentCaseInsensitive rc.world = false) :
    (composeEnv C s rc).env
      = s.getStepModel.Env.foldl (fun t kv => assign t kv.1 kv.2) (mergeEnv C rc).env := by
  have hw : (mergeEnv C rc).world = rc.world := rfl
  simp [composeEnv, mergeIntoMap, hw, hcs, mergeIntoMapCaseSensitive]

/-- C8. On a case-sensitive backend, for every key of the environment
declared by the step, the map composed by `setupEnv` before interpolation
holds the step's value under that key, whatever the ambient, container and
context-derived environments and the previous content of the step
environment are; the final value is the interpolation of the step's value:
by the first evaluator for a key without the prefix `INPUT_`, and for a key
with the prefix by the second evaluator, on the environment as it stands when
the key is visited (which has the keys and, outside the input bindings, the
values left by the first pass). -/
theorem step_env_wins (C : Collaborators W) (s : step) (rc : State W) (k v : String)
    (hcs : C.IsEnvironmentCaseInsensitive rc.world = false)
    (hwf : WF s.getStepModel.Env) (hmerged : WF (mergeEnv C rc).env)
    (hk : index s.getStepModel.Env k = some v) :
    index (composeEnv C s rc).env k = some v
    ∧ (HasPrefix k "INPUT_" = false →
        index (setupEnv C s rc).1.env k
          = some (C.NewExpressionEvaluator (composeEnv C s rc) v))
    ∧ (HasPrefix k "INPUT_" = true →
        ∃ e, SameOutsideInputs (afterPass1 C (composeEnv C s rc)).env e ∧ index e k = some v
          ∧ index (setupEnv C s rc).1.env k
            = some (C.NewExpressionEvaluatorWithEnv (afterPass1 C (composeEnv C s rc)) e v)) := by
  have hc : index (composeEnv C s rc).env k = some v := by
    rw [composeEnv_env C s rc hcs]
    exact index_foldl_assign _ _ k v hwf hk
  have hwfc : WF (composeEnv C s rc).env := by
    rw [composeEnv_env C s rc hcs]
    exact WF_foldl_assign _ _ hmerged
  refine ⟨hc, ?_, ?_⟩
  · intro hp
    exact index_interpolateEnv_other C (composeEnv C s rc) hwfc k v hc hp
  · intro hp
    exact index_interpolateEnv_input C (composeEnv C s rc) hwfc k v hc hp

theorem step_env_wins_witness :
    index (demo.GetEnv demoState) "MODE" = some "ambient"
    ∧ demo.Container demoState = some [("MODE", "container")]
    ∧ index (mergeEnv demo demoState).env "MODE" = some "context"
    ∧ index (composeEnv demo (demoStep "true" "") demoState).env "MODE" = some "step"
    ∧ index (setupEnv demo (demoStep "true" "") demoState).1.env "MODE" = some "step" :=
  have h := step_env_wins demo (demoStep "true" "") demoState "MODE" "step"
    (by decide) (by decide) (by decide) (by decide)
  ⟨by decide, by decide, by decide, h.1, h.2.1 (by decide)⟩

theorem mem_keys_assign {β : Type} (m : List (String × β)) (k j : String) (v : β)
    (h : j ∈ keys (assign m k v)) : j = k ∨ j ∈ keys m := by
  by_cases hk : k ∈ keys m
  · rw [keys_assign_of_mem m k v hk] at h
    exact Or.inr h
  · rw [assign_of_not_mem m k v hk] at h
    simp only [keys, List.map_append, List.map_cons, List.map_nil, List.mem_append,
      List.mem_singleton] at h
    rcases h with h | h
    · exact Or.inr h
    · exact Or.inl h

theorem mem_keys_initFoldKeys (ToLower : String → String) (target : GoMap) (j : String)
    (h : j ∈ keys (initFoldKeys ToLower target)) : ∃ kv ∈ target, ToLower kv.1 = j := by
  have key : ∀ (l acc : GoMap),
      j ∈ keys (l.foldl (fun fk kv => assign fk (ToLower kv.1) kv.1) acc) →
      j ∈ keys acc ∨ ∃ kv ∈ l, ToLower kv.1 = j := by
    intro l
    induction l with
    | nil => intro acc h; exact Or.inl h
    | cons a l ih =>
      intro acc h
      rcases ih _ h with h' | ⟨kv, hkv, e⟩
      · rcases mem_keys_assign _ _ _ _ h' with e | e
        · exact Or.inr ⟨a, List.mem_cons_self _ _, e.symm⟩
        · exact Or.inl e
      · exact Or.inr ⟨kv, List.mem_cons_of_mem _ hkv, e⟩
  rcases key target [] h with h' | h'
  · simp [keys] at h'
  · exact h'

/-- C9. With an idempotent lower-casing, on a target holding no key with the
fold of `k1`: after two successive source maps write `k1` with `v1` and then
`k2`, of the same fold, with `v2`, the target is the old one followed by the
single entry of that fold, spelled `k1` and holding `v2`. -/
theorem first_casing_last_value (ToLower : String → String) (target : GoMap)
    (k1 k2 v1 v2 : String)
    (hidem : ∀ x, ToLower (ToLower x) = ToLower x)
    (hfresh : ∀ kv ∈ target, ToLower kv.1 ≠ ToLower k1)
    (hfold : ToLower k2 = ToLower k1) :
    mergeIntoMapCaseInsensitive ToLower target [[(k1, v1)], [(k2, v2)]]
      = target ++ [(k1, v2)]
    ∧ (mergeIntoMapCaseInsensitive ToLower target [[(k1, v1)], [(k2, v2)]]).filter
        (fun kv => decide (ToLower kv.1 = ToLower k1)) = [(k1, v2)] := by
  have hnone : index (initFoldKeys ToLower target) (ToLower k1) = none := by
    rw [index_eq_none_iff]
    intro hm
    obtain ⟨kv, hkv, e⟩ := mem_keys_initFoldKeys ToLower target _ hm
    exact hfresh kv hkv e
  have hk1 : k1 ∉ keys target := by
    intro hm
    obtain ⟨kv, hkv, e⟩ := List.mem_map.mp hm
    exact hfresh kv hkv (by rw [e])
  have hres : mergeIntoMapCaseInsensitive ToLower target [[(k1, v1)], [(k2, v2)]]
      = target ++ [(k1, v2)] := by
    simp only [mergeIntoMapCaseInsensitive, List.foldl_cons, List.foldl_nil, insensitiveWrite,
      toKey, hnone, hidem, hfold, index_assign_self]
    rw [assign_of_not_mem target k1 v1 hk1]
    exact assign_append_of_not_mem target [] k1 v1 v2 hk1
  refine ⟨hres, ?_⟩
  rw [hres, List.filter_append]
  have hnil : target.filter (fun kv => decide (ToLower kv.1 = ToLower k1)) = [] := by
    rw [List.filter_eq_nil_iff]
    intro kv hkv
    simpa using hfresh kv hkv
  simp [hnil]

theorem toNat_ofNat_of_small (n : Nat) (h : n < 0xd800) : (Char.ofNat n).toNat = n := by
  have hv : n.isValidChar := Or.inl h
  simp only [Char.ofNat, hv, dite_true]
  simp [Char.ofNatAux, Char.toNat, UInt32.toNat]

theorem toLower_toLower (c : Char) : c.toLower.toLower = c.toLower := by
  by_cases h : 65 ≤ c.toNat ∧ c.toNat ≤ 90
  · have h1 : c.toLower = Char.ofNat (c.toNat + 32) := by
      simp [Char.toLower, h]
    have h2 : (Char.ofNat (c.toNat + 32)).toNat = c.toNat + 32 :=
      toNat_ofNat_of_small _ (by omega)
    rw [h1]
    simp only [Char.toLower, h2]
    rw [if_neg]
    omega
  · have h1 : c.toLower = c := by
      simp only [Char.toLower]
      rw [if_neg]
      simpa using h
    rw [h1, h1]

theorem demo_ToLower_idempotent (x : String) : demo.ToLower (demo.ToLower x) = demo.ToLower x := by
  simp [demo, List.map_map, Function.comp_def, toLower_toLower]

theorem first_casing_last_value_witness :
    mergeIntoMapCaseInsensitive demo.ToLower [("HOME", "/root")]
        [[("PATH", "/bin")], [("Path", "/usr/bin")]]
      = [("HOME", "/root"), ("PATH", "/usr/bin")]
    ∧ mergeIntoMapCaseInsensitive demo.ToLower [("HOME", "/root")]
        [[("Path", "/usr/bin")], [("PATH", "/bin")]]
      = [("HOME", "/root"), ("Path", "/bin")] :=
  ⟨(first_casing_last_value demo.ToLower [("HOME", "/root")] "PATH" "Path" "/bin" "/usr/bin"
      demo_ToLower_idempotent (by decide) (by decide)).1,
    (first_casing_last_value demo.ToLower [("HOME", "/root")] "Path" "PATH" "/usr/bin" "/bin"
      demo_ToLower_idempotent (by decide) (by decide)).1⟩

/-! ### Timeout -/

theorem evaluateStepTimeout_parsed (exprEval : String → String) (stepModel : Step) (n : Int)
    (hne : exprEval stepModel.TimeoutMinutes ≠ "")
    (hn : ParseInt (exprEval stepModel.TimeoutMinutes) = some n) :
    evaluateStepTimeout exprEval stepModel = some (wrap64 (n * Minute)) := by
  simp [evaluateStepTimeout, hne, hn]

theorem evaluateStepTimeout_unparsed (exprEval : String → String) (stepModel : Step)
    (hn : ParseInt (exprEval stepModel.TimeoutMinutes) = none) :
    evaluateStepTimeout exprEval stepModel = none := by
  simp [evaluateStepTimeout, hn]

/-- C11. The scope derived by `evaluateStepTimeout` is bounded exactly when
the interpolated timeout is not empty and `strconv.ParseInt` accepts it; the
timeout `5` gives a scope of five minutes; the empty timeout, `abc` and every
other string that does not parse give the parent scope. -/
theorem timeout_bounded_iff (exprEval : String → String) (stepModel : Step) :
    ((evaluateStepTimeout exprEval stepModel).isSome = true
      ↔ exprEval stepModel.TimeoutMinutes ≠ ""
        ∧ (ParseInt (exprEval stepModel.TimeoutMinutes)).isSome = true)
    ∧ (exprEval stepModel.TimeoutMinutes = "5" →
        evaluateStepTimeout exprEval stepModel = some (5 * Minute))
    ∧ (exprEval stepModel.TimeoutMinutes = "" → evaluateStepTimeout exprEval stepModel = none)
    ∧ (exprEval stepModel.TimeoutMinutes = "abc" →
        evaluateStepTimeout exprEval stepModel = none)
    ∧ (ParseInt (exprEval stepModel.TimeoutMinutes) = none →
        evaluateStepTimeout exprEval stepModel = none) := by
  refine ⟨?_, ?_, ?_, ?_, evaluateStepTimeout_unparsed exprEval stepModel⟩
  · by_cases hne : exprEval stepModel.TimeoutMinutes = ""
    · simp [evaluateStepTimeout, hne]
    · cases hn : ParseInt (exprEval stepModel.TimeoutMinutes) with
      | none => simp [evaluateStepTimeout, hn]
      | some n => simp [evaluateStepTimeout, hne, hn]
  · intro h
    rw [evaluateStepTimeout_parsed exprEval stepModel 5 (by rw [h]; decide) (by rw [h]; decide)]
    decide
  · intro h
    exact evaluateStepTimeout_unparsed exprEval stepModel (by rw [h]; decide)
  · intro h
    exact evaluateStepTimeout_unparsed exprEval stepModel (by rw [h]; decide)

theorem timeout_bounded_iff_witness :
    evaluateStepTimeout (fun v => v) ⟨"build", "", "", "5", []⟩ = some 300000000000
    ∧ evaluateStepTimeout (fun v => v) ⟨"build", "", "", "", []⟩ = none
    ∧ evaluateStepTimeout (fun v => v) ⟨"build", "", "", "abc", []⟩ = none
    ∧ evaluateStepTimeout (fun v => v) ⟨"build", "", "", "5m", []⟩ = none :=
  ⟨(timeout_bounded_iff (fun v => v) ⟨"build", "", "", "5", []⟩).2.1 rfl,
    (timeout_bounded_iff (fun v => v) ⟨"build", "", "", "", []⟩).2.2.1 rfl,
    (timeout_bounded_iff (fun v => v) ⟨"build", "", "", "abc", []⟩).2.2.2.1 rfl,
    (timeout_bounded_iff (fun v => v) ⟨"build", "", "", "5m", []⟩).2.2.2.2 (by decide)⟩

/-- C12 (amended). For an interpolated timeout that is not empty and parses
as an integer `n` between -153722867 and 153722867, the scope derived by
`evaluateStepTimeout` lasts `n` minutes, that is `n * 60 * 10^9` nanoseconds. -/
theorem timeout_minutes_in_range (exprEval : String → String) (stepModel : Step) (n : Int)
    (hne : exprEval stepModel.TimeoutMinutes ≠ "")
    (hn : ParseInt (exprEval stepModel.TimeoutMinutes) = some n)
    (hlo : -153722867 ≤ n) (hhi : n ≤ 153722867) :
    evaluateStepTimeout exprEval stepModel = some (n * 60 * 10 ^ 9) := by
  rw [evaluateStepTimeout_parsed exprEval stepModel n hne hn]
  simp only [wrap64, Minute]
  norm_num
  omega

theorem timeout_minutes_in_range_witness :
    evaluateStepTimeout (fun v => v) ⟨"build", "", "", "153722867", []⟩
      = some (153722867 * 60 * 10 ^ 9) :=
  timeout_minutes_in_range (fun v => v) ⟨"build", "", "", "153722867", []⟩ 153722867
    (by decide) (by decide) (by decide) (by decide)

/-- C12 as stated fails: the timeout `153722868` parses, and the duration
computed in 64-bit arithmetic is negative, not 153722868 minutes. -/
theorem timeout_minutes_counterexample :
    ParseInt "153722868" = some 153722868
    ∧ evaluateStepTimeout (fun v => v) ⟨"build", "", "", "153722868", []⟩
        = some (-9223371993709551616)
    ∧ ¬ (evaluateStepTimeout (fun v => v) ⟨"build", "", "", "153722868", []⟩
        = some (153722868 * 60 * 10 ^ 9)) := by
  decide

/-! ### Default status checks -/

/-- C15. `isStepEnabled` consults the evaluator with the default status check
"always" at stage Post and "success" at every other stage, and
`isContinueOnError`, on an expression that is not blank, with "none" at every
stage: the result is the evaluator's answer at that status check, it is the
same for every evaluator with that answer, and it is false with an error
whenever the evaluator reports an error. -/
theorem default_status_checks (C : Collaborators W) (expr : String) (s : step)
    (stage : stepStage) (rc : State W) (d : DefaultStatusCheck)
    (hd : d = if stage = stepStagePost then DefaultStatusCheckAlways
      else DefaultStatusCheckSuccess) :
    (d = DefaultStatusCheckAlways ↔ stage = stepStagePost)
    ∧ ((C.EvalBool rc s expr d).2 = none →
        isStepEnabled C expr s stage rc = ((C.EvalBool rc s expr d).1, none))
    ∧ (∀ e, (C.EvalBool rc s expr d).2 = some e →
        isStepEnabled C expr s stage rc
          = (false, some ("  ❌  Error in if-expression: \"if: " ++ expr ++ "\" (" ++ e ++ ")")))
    ∧ (∀ C' : Collaborators W, C'.EvalBool rc s expr d = C.EvalBool rc s expr d →
        isStepEnabled C' expr s stage rc = isStepEnabled C expr s stage rc)
    ∧ (TrimSpace expr ≠ "" →
        ((C.EvalBool rc s expr DefaultStatusCheckNone).2 = none →
          isContinueOnError C expr s stage rc
            = ((C.EvalBool rc s expr DefaultStatusCheckNone).1, none))
        ∧ (∀ e, (C.EvalBool rc s expr DefaultStatusCheckNone).2 = some e →
          isContinueOnError C expr s stage rc
            = (false, some ("  ❌  Error in continue-on-error-expression: \"continue-on-error: "
                ++ expr ++ "\" (" ++ e ++ ")")))
        ∧ (∀ C' : Collaborators W,
            C'.EvalBool rc s expr DefaultStatusCheckNone
              = C.EvalBool rc s expr DefaultStatusCheckNone →
            isContinueOnError C' expr s stage rc = isContinueOnError C expr s stage rc)) := by
  have hen : ∀ C' : Collaborators W, isStepEnabled C' expr s stage rc =
      match (C'.EvalBool rc s expr d).2 with
      | some err =>
        (false, some ("  ❌  Error in if-expression: \"if: " ++ expr ++ "\" (" ++ err ++ ")"))
      | none => ((C'.EvalBool rc s expr d).1, none) := by
    intro C'
    rw [hd]
    rfl
  refine ⟨?_, ?_, ?_, ?_, ?_⟩
  · rw [hd]
    by_cases h : stage = stepStagePost <;> simp [h]
  · intro h
    rw [hen, h]
  · intro e h
    rw [hen, h]
  · intro C' h
    rw [hen, hen, h]
  · intro hne
    have hlen : ¬ ((TrimSpace expr).utf8ByteSize = 0) := by
      intro h0
      apply hne
      have hd0 : (TrimSpace expr).data = [] := by
        cases hl : (TrimSpace expr).data with
        | nil => rfl
        | cons c l =>
          have hpos : 0 < (TrimSpace expr).utf8ByteSize := by
            have : TrimSpace expr = String.mk (c :: l) := by
              rw [← hl]
            rw [this]
            simp only [String.utf8ByteSize, String.utf8ByteSize.go]
            have := Char.utf8Size_pos c
            omega
          omega
      exact String.ext hd0
    have hco : ∀ C' : Collaborators W, isContinueOnError C' expr s stage rc =
        match (C'.EvalBool rc s expr DefaultStatusCheckNone).2 with
        | some err =>
          (false, some ("  ❌  Error in continue-on-error-expression: \"continue-on-error: "
            ++ expr ++ "\" (" ++ err ++ ")"))
        | none => ((C'.EvalBool rc s expr DefaultStatusCheckNone).1, none) := by
      intro C'
      simp only [isContinueOnError, hlen, if_false]
    refine ⟨?_, ?_, ?_⟩
    · intro h
      rw [hco, h]
    · intro e h
      rw [hco, h]
    · intro C' h
      rw [hco, hco, h]

theorem default_status_checks_witness :
    isStepEnabled (probeFor DefaultStatusCheckAlways) "x" (demoStep "x" "x") stepStagePost
        demoState = (true, none)
    ∧ isStepEnabled (probeFor DefaultStatusCheckSuccess) "x" (demoStep "x" "x") stepStagePre
        demoState = (true, none)
    ∧ isStepEnabled (probeFor DefaultStatusCheckSuccess) "x" (demoStep "x" "x") stepStageMain
        demoState = (true, none)
    ∧ isStepEnabled (probeFor DefaultStatusCheckSuccess) "x" (demoStep "x" "x") 7
        demoState = (true, none)
    ∧ isContinueOnError (probeFor DefaultStatusCheckNone) "x" (demoStep "x" "x") stepStagePost
        demoState = (true, none) :=
  ⟨(default_status_checks (probeFor DefaultStatusCheckAlways) "x" (demoStep "x" "x")
      stepStagePost demoState DefaultStatusCheckAlways (by decide)).2.1 rfl,
    (default_status_checks (probeFor DefaultStatusCheckSuccess) "x" (demoStep "x" "x")
      stepStagePre demoState DefaultStatusCheckSuccess (by decide)).2.1 rfl,
    (default_status_checks (probeFor DefaultStatusCheckSuccess) "x" (demoStep "x" "x")
      stepStageMain demoState DefaultStatusCheckSuccess (by decide)).2.1 rfl,
    (default_status_checks (probeFor DefaultStatusCheckSuccess) "x" (demoStep "x" "x")
      7 demoState DefaultStatusCheckSuccess (by decide)).2.1 rfl,
    ((default_status_checks (probeFor DefaultStatusCheckNone) "x" (demoStep "x" "x")
      stepStagePost demoState DefaultStatusCheckAlways (by decide)).2.2.2.2 (by decide)).1 rfl⟩

/-! ### Runner file commands -/

theorem processRunnerEnvFileCommand_failed (C : Collaborators W) (fileName : String)
    (setter : GoMap → String → State W → Effect W) (rc : State W) (e : error)
    (h : (C.UpdateFromEnv (C.Join (C.GetActPath rc.world) fileName) rc.world).2 = some e) :
    processRunnerEnvFileCommand C fileName setter rc = (rc, some e) := by
  simp only [processRunnerEnvFileCommand, h]

theorem processRunnerEnvFileCommand_parsed (C : Collaborators W) (fileName : String)
    (setter : GoMap → String → State W → Effect W) (rc : State W)
    (h : (C.UpdateFromEnv (C.Join (C.GetActPath rc.world) fileName) rc.world).2 = none) :
    processRunnerEnvFileCommand C fileName setter rc
      = ((setterCalls (C.UpdateFromEnv (C.Join (C.GetActPath rc.world) fileName) rc.world).1).foldl
          (fun rc call => commit rc (setter call.1 call.2 rc)) rc, none) := by
  simp only [processRunnerEnvFileCommand, h, setterCalls, List.foldl_map]

theorem processRunnerEnvFileCommand_state_of_failed (C : Collaborators W) (fileName : String)
    (setter : GoMap → String → State W → Effect W) (rc : State W) (e : error)
    (h : (processRunnerEnvFileCommand C fileName setter rc).2 = some e) :
    (processRunnerEnvFileCommand C fileName setter rc).1 = rc := by
  cases hu : (C.UpdateFromEnv (C.Join (C.GetActPath rc.world) fileName) rc.world).2 with
  | some e' => rw [processRunnerEnvFileCommand_failed C fileName setter rc e' hu]
  | none =>
    rw [processRunnerEnvFileCommand_parsed C fileName setter rc hu] at h
    cases h

/-- C16. When reading the callback file fails, `processRunnerEnvFileCommand`
returns that error and leaves the state as it was, whatever the setter is:
the setter is not invoked.  When it gives a mapping, the function returns no
error and the state is the one left by the calls of the setter made in turn,
one for each entry of the mapping, with the context holding the entry's key
under `name` alone and with the entry's value. -/
theorem setter_called_per_entry (C : Collaborators W) (fileName : String)
    (setter : GoMap → String → State W → Effect W) (rc : State W) (m : GoMap)
    (r : Option error)
    (hread : C.UpdateFromEnv (C.Join (C.GetActPath rc.world) fileName) rc.world = (m, r)) :
    (∀ e, r = some e →
      ∀ setter' : GoMap → String → State W → Effect W,
        processRunnerEnvFileCommand C fileName setter' rc = (rc, some e))
    ∧ (r = none →
      processRunnerEnvFileCommand C fileName setter rc
        = ((setterCalls m).foldl (fun rc call => commit rc (setter call.1 call.2 rc)) rc, none)
      ∧ setterCalls m = m.map (fun kv => ([("name", kv.1)], kv.2))
      ∧ (setterCalls m).length = m.length) := by
  constructor
  · intro e he setter'
    exact processRunnerEnvFileCommand_failed C fileName setter' rc e (by rw [hread, he])
  · intro hr
    refine ⟨?_, rfl, by simp [setterCalls]⟩
    rw [processRunnerEnvFileCommand_parsed C fileName setter rc (by rw [hread, hr]), hread]

theorem setter_called_per_entry_witness :
    (processRunnerEnvFileCommand demoFiles "workflow/envs.txt" demoFiles.setEnv demoState).2
      = none
    ∧ (processRunnerEnvFileCommand demoFiles "workflow/envs.txt" demoFiles.setEnv demoState).1.world
      = ["env A=1", "env B=2"]
    ∧ processRunnerEnvFileCommand demoFiles "workflow/envs.txt" demoFiles.setEnv
        { demoState with world := ["corrupt /act/workflow/envs.txt"] }
      = ({ demoState with world := ["corrupt /act/workflow/envs.txt"] },
          some "cannot parse /act/workflow/envs.txt") :=
  have h := (setter_called_per_entry demoFiles "workflow/envs.txt" demoFiles.setEnv demoState
    [("A", "1"), ("B", "2")] none (by decide)).2 rfl
  ⟨by rw [h.1], by rw [h.1]; decide,
    (setter_called_per_entry demoFiles "workflow/envs.txt" demoFiles.setEnv
      { demoState with world := ["corrupt /act/workflow/envs.txt"] }
      [("A", "1")] (some "cannot parse /act/workflow/envs.txt") (by decide)).1 _ rfl _⟩

/-- The result of the reconciliation, step by step. -/
theorem reconcile_steps (C : Collaborators W) (path : String) (orgerr : Option error)
    (rc : State W) :
    reconcile C path orgerr rc =
      match (envFileStep C rc).2 with
      | some e => ((envFileStep C rc).1, some e)
      | none =>
        match (stateFileStep C rc).2 with
        | some e => ((stateFileStep C rc).1, some e)
        | none =>
          match (outputFileStep C rc).2 with
          | some e => ((outputFileStep C rc).1, some e)
          | none =>
            match (extraPathStep C path rc).2 with
            | some e =>
              ({ (outputFileStep C rc).1 with world := (extraPathStep C path rc).1 }, some e)
            | none =>
              ({ (outputFileStep C rc).1 with world := (extraPathStep C path rc).1 }, orgerr) := by
  unfold reconcile
  simp only []
  cases h1 : (envFileStep C rc).2 with
  | some e => simp only [envFileStep] at h1; simp only [h1]; rfl
  | none =>
    simp only [envFileStep] at h1
    simp only [h1]
    cases h2 : (stateFileStep C rc).2 with
    | some e => simp only [stateFileStep, envFileStep] at h2; simp only [h2]; rfl
    | none =>
      simp only [stateFileStep, envFileStep] at h2
      simp only [h2]
      cases h3 : (outputFileStep C rc).2 with
      | some e => simp only [outputFileStep, stateFileStep, envFileStep] at h3; simp only [h3]; rfl
      | none =>
        simp only [outputFileStep, stateFileStep, envFileStep] at h3
        simp only [h3]
        cases h4 : (extraPathStep C path rc).2 with
        | some e =>
          simp only [extraPathStep, outputFileStep, stateFileStep, envFileStep] at h4
          simp only [h4]
          rfl
        | none =>
          simp only [extraPathStep, outputFileStep, stateFileStep, envFileStep] at h4
          simp only [h4]
          cases orgerr <;> rfl

/-- The executor of a step that ran ends in the reconciliation. -/
theorem runStepExecutor_reconciles (C : Collaborators W) (s : step) (stage : stepStage)
    (executor : Option Int → State W → Effect W × Option error) (rc : State W)
    (hif : ifResult C s stage rc = (true, none))
    (hcont : (bodyResult C s stage executor rc).2 = none
      ∨ (continueResult C s stage executor rc).2 = none) :
    ∃ orgerr, runStepExecutor C s stage executor rc
      = reconcile C (actPath C s stage rc) orgerr (atReconcile C s stage executor rc) := by
  rw [runStepExecutor_eq, hif]
  cases hbody : (bodyResult C s stage executor rc).2 with
  | none => exact ⟨none, by simp⟩
  | some b =>
    have hc : (continueResult C s stage executor rc).2 = none := by
      rcases hcont with h | h
      · rw [hbody] at h; cases h
      · exact h
    exact ⟨_, by simp [hc]; rfl⟩

/-- C17. For a step that ran, the reconciliation runs its four steps in the
order env-update file, state file, output file, extra path, each on the state
left by the one before, and stops at the first that fails, keeping what the
earlier ones did: when step `i` fails the executor returns its error and the
state left by steps `1` to `i - 1` (for the extra path, with the world that
step left), and the later steps are not run. -/
theorem reconcile_not_transactional (C : Collaborators W) (s : step) (stage : stepStage)
    (executor : Option Int → State W → Effect W × Option error) (rc : State W) (e : error)
    (hif : ifResult C s stage rc = (true, none))
    (hcont : (bodyResult C s stage executor rc).2 = none
      ∨ (continueResult C s stage executor rc).2 = none) :
    ((envFileStep C (atReconcile C s stage executor rc)).2 = some e →
      runStepExecutor C s stage executor rc = (atReconcile C s stage executor rc, some e))
    ∧ ((envFileStep C (atReconcile C s stage executor rc)).2 = none →
      (stateFileStep C (atReconcile C s stage executor rc)).2 = some e →
      runStepExecutor C s stage executor rc
        = ((envFileStep C (atReconcile C s stage executor rc)).1, some e))
    ∧ ((envFileStep C (atReconcile C s stage executor rc)).2 = none →
      (stateFileStep C (atReconcile C s stage executor rc)).2 = none →
      (outputFileStep C (atReconcile C s stage executor rc)).2 = some e →
      runStepExecutor C s stage executor rc
        = ((stateFileStep C (atReconcile C s stage executor rc)).1, some e))
    ∧ ((envFileStep C (atReconcile C s stage executor rc)).2 = none →
      (stateFileStep C (atReconcile C s stage executor rc)).2 = none →
      (outputFileStep C (atReconcile C s stage executor rc)).2 = none →
      (extraPathStep C (actPath C s stage rc) (atReconcile C s stage executor rc)).2 = some e →
      runStepExecutor C s stage executor rc
        = ({ (outputFileStep C (atReconcile C s stage executor rc)).1 with
              world := (extraPathStep C (actPath C s stage rc)
                (atReconcile C s stage executor rc)).1 }, some e)) := by
  obtain ⟨orgerr, h⟩ := runStepExecutor_reconciles C s stage executor rc hif hcont
  rw [h, reconcile_steps]
  refine ⟨?_, ?_, ?_, ?_⟩
  · intro h1
    rw [h1]
    simp only []
    rw [show (envFileStep C (atReconcile C s stage executor rc)).1
      = atReconcile C s stage executor rc from
        processRunnerEnvFileCommand_state_of_failed C _ _ _ e h1]
  · intro h1 h2
    rw [h1, h2]
    simp only []
    rw [show (stateFileStep C (atReconcile C s stage executor rc)).1
      = (envFileStep C (atReconcile C s stage executor rc)).1 from
        processRunnerEnvFileCommand_state_of_failed C _ _ _ e h2]
  · intro h1 h2 h3
    rw [h1, h2, h3]
    simp only []
    rw [show (outputFileStep C (atReconcile C s stage executor rc)).1
      = (stateFileStep C (atReconcile C s stage executor rc)).1 from
        processRunnerEnvFileCommand_state_of_failed C _ _ _ e h3]
  · intro h1 h2 h3 h4
    rw [h1, h2, h3, h4]

theorem reconcile_not_transactional_witness :
    (runStepExecutor demo (demoStep "true" "") stepStageMain
        (demoBody ["corrupt /act/workflow/outputcmd.txt"] none) demoState).2
      = some "cannot parse /act/workflow/outputcmd.txt"
    ∧ (runStepExecutor demo (demoStep "true" "") stepStageMain
        (demoBody ["corrupt /act/workflow/outputcmd.txt"] none) demoState).1.world
      = ["corrupt /act/workflow/outputcmd.txt", "env LAST=/act/workflow/envs.txt",
          "state LAST=/act/workflow/statecmd.txt"] :=
  have h := (reconcile_not_transactional demo (demoStep "true" "") stepStageMain
    (demoBody ["corrupt /act/workflow/outputcmd.txt"] none) demoState
    "cannot parse /act/workflow/outputcmd.txt" (by decide) (Or.inl (by decide))).2.2.1
    (by decide) (by decide) (by decide)
  ⟨by rw [h], by rw [h]; decide⟩

/-! ### What an invocation leaves untouched -/

theorem length_writeOutputsFrom (t : Nat → GoMap → GoMap) (heap : List StepResult) (p : Nat) :
    (writeOutputsFrom t p heap).length = heap.length := by
  induction heap generalizing p with
  | nil => rfl
  | cons a l ih => simp [writeOutputsFrom, ih]

theorem untouched_refl (n : Nat) (a : State W) : Untouched n a a :=
  ⟨rfl, rfl, rfl, rfl, rfl, fun _ _ => rfl⟩

theorem untouched_trans {n : Nat} {a b c : State W} (hab : Untouched n a b)
    (hbc : Untouched n b c) : Untouched n a c :=
  ⟨hbc.1.trans hab.1, hbc.2.1.trans hab.2.1, hbc.2.2.1.trans hab.2.2.1,
    hbc.2.2.2.1.trans hab.2.2.2.1, hbc.2.2.2.2.1.trans hab.2.2.2.2.1,
    fun p hp => (hbc.2.2.2.2.2 p hp).trans (hab.2.2.2.2.2 p hp)⟩

theorem untouched_of_frame (n : Nat) {a b : State W} (h : Frame a b) : Untouched n a b := by
  refine ⟨frame_StepResults h, frame_CurrentStep h, ?_, ?_, ?_, fun p _ => frame_statuses h p⟩
  · obtain ⟨w, t, h⟩ := h
    rw [h]
  · obtain ⟨w, t, h⟩ := h
    rw [h]
  · obtain ⟨w, t, h⟩ := h
    rw [h]
    exact length_writeOutputsFrom t a.heap 0

theorem untouched_setStatus (n : Nat) (a : State W) (f : StepResult → StepResult) :
    Untouched n a { a with heap := setStatus a.heap n f } := by
  refine ⟨rfl, rfl, rfl, rfl, ?_, ?_⟩
  · simp [setStatus]
  · intro p hp
    have hne : ¬ n = p := fun e => hp e.symm
    simp [setStatus, List.getElem?_modify, hne]

theorem untouched_of_fields (n : Nat) (a b : State W) (h1 : b.StepResults = a.StepResults)
    (h2 : b.CurrentStep = a.CurrentStep) (h3 : b.Prev = a.Prev) (h4 : b.steps = a.steps)
    (h5 : b.heap = a.heap) : Untouched n a b :=
  ⟨h1, h2, h3, h4, by rw [h5], fun _ _ => by rw [h5]⟩

theorem untouched_setupEnv (n : Nat) (C : Collaborators W) (s : step) (rc : State W) :
    Untouched n rc (setupEnv C s rc).1 :=
  untouched_of_fields _ _ _ rfl rfl rfl rfl rfl

theorem untouched_syncfile (n : Nat) (rc : State W) (lines : List String) :
    Untouched n rc { rc with syncfile := lines } :=
  untouched_of_fields _ _ _ rfl rfl rfl rfl rfl

theorem untouched_prepareFileCommands (n : Nat) (C : Collaborators W) (path : String)
    (rc : State W) : Untouched n rc (prepareFileCommands C path rc) :=
  untouched_of_fields _ _ _ rfl rfl rfl rfl rfl

theorem untouched_atTrace (C : Collaborators W) (s : step) (stage : stepStage) (rc : State W) :
    Untouched rc.heap.length (enter s stage rc).1 (atTrace C s stage rc) := by
  unfold atTrace atIf
  exact untouched_trans (untouched_setupEnv _ C s _) (untouched_syncfile _ _ _)

theorem untouched_afterBody (C : Collaborators W) (s : step) (stage : stepStage)
    (executor : Option Int → State W → Effect W × Option error) (rc : State W) :
    Untouched rc.heap.length (enter s stage rc).1 (afterBody C s stage executor rc) :=
  untouched_trans (untouched_trans (untouched_atTrace C s stage rc)
      (show Untouched rc.heap.length (atTrace C s stage rc) (atBody C s stage rc) from
        untouched_prepareFileCommands _ C _ _))
    (untouched_of_frame _ (frame_commit _ _))

theorem untouched_atContinue (C : Collaborators W) (s : step) (stage : stepStage)
    (executor : Option Int → State W → Effect W × Option error) (rc : State W) :
    Untouched rc.heap.length (enter s stage rc).1 (atContinue C s stage executor rc) :=
  untouched_trans (untouched_afterBody C s stage executor rc) (untouched_setStatus _ _ _)

theorem untouched_atReconcile (C : Collaborators W) (s : step) (stage : stepStage)
    (executor : Option Int → State W → Effect W × Option error) (rc : State W) :
    Untouched rc.heap.length (enter s stage rc).1 (atReconcile C s stage executor rc) := by
  unfold atReconcile
  split
  · exact untouched_afterBody C s stage executor rc
  · exact untouched_trans (untouched_atContinue C s stage executor rc)
      (untouched_setStatus _ _ _)

/-- On every exit path, the state returned is the state at entry up to the
environment, the trace, the world, the outputs and the statuses of the fresh
result. -/
theorem untouched_runStepExecutor (C : Collaborators W) (s : step) (stage : stepStage)
    (executor : Option Int → State W → Effect W × Option error) (rc : State W) :
    Untouched rc.heap.length (enter s stage rc).1 (runStepExecutor C s stage executor rc).1 := by
  rw [runStepExecutor_eq]
  cases (ifResult C s stage rc).2 with
  | some err =>
    exact untouched_trans (untouched_atTrace C s stage rc) (untouched_setStatus _ _ _)
  | none =>
    simp only []
    split
    · exact untouched_trans (untouched_atTrace C s stage rc) (untouched_setStatus _ _ _)
    · cases (bodyResult C s stage executor rc).2 with
      | none =>
        exact untouched_trans (untouched_atReconcile C s stage executor rc)
          (untouched_of_frame _ (reconcile_frame _ _ _ _))
      | some e =>
        simp only []
        cases (continueResult C s stage executor rc).2 with
        | some parseErr =>
          exact untouched_trans (untouched_atContinue C s stage executor rc)
            (untouched_setStatus _ _ _)
        | none =>
          exact untouched_trans (untouched_atReconcile C s stage executor rc)
            (untouched_of_frame _ (reconcile_frame _ _ _ _))

theorem previousStep_none_iff (rc : State W) :
    previousStep rc = none ↔ ∀ ps ∈ rc.steps, ps.ID ≠ rc.CurrentStep := by
  unfold previousStep
  have key : ∀ (l : List Step) (init : Option Step),
      l.foldl (fun prevStep ps => if ps.ID = rc.CurrentStep then some ps else prevStep) init
        = none ↔ init = none ∧ ∀ ps ∈ l, ps.ID ≠ rc.CurrentStep := by
    intro l
    induction l with
    | nil => intro init; simp
    | cons a l ih =>
      intro init
      rw [List.foldl_cons, ih]
      by_cases h : a.ID = rc.CurrentStep
      · simp [h]
      · simp [h]
  simpa using key rc.steps none

theorem previousStep_some (rc : State W) (ps : Step) (h : previousStep rc = some ps) :
    ps ∈ rc.steps ∧ ps.ID = rc.CurrentStep := by
  unfold previousStep at h
  have key : ∀ (l : List Step) (init : Option Step),
      l.foldl (fun prevStep ps => if ps.ID = rc.CurrentStep then some ps else prevStep) init
        = some ps → init = some ps ∨ (ps ∈ l ∧ ps.ID = rc.CurrentStep) := by
    intro l
    induction l with
    | nil => intro init h; exact Or.inl h
    | cons a l ih =>
      intro init h
      rw [List.foldl_cons] at h
      rcases ih _ h with h' | h'
      · by_cases ha : a.ID = rc.CurrentStep
        · rw [if_pos ha] at h'
          cases h'
          exact Or.inr ⟨List.mem_cons_self _ _, ha⟩
        · rw [if_neg ha] at h'
          exact Or.inl h'
      · exact Or.inr ⟨List.mem_cons_of_mem _ h'.1, h'.2⟩
  rcases key rc.steps none h with h' | h'
  · cases h'
  · exact h'

theorem enter_Prev (s : step) (stage : stepStage) (rc : State W) :
    (enter s stage rc).1.Prev = previousStep rc := by
  unfold enter; split <;> rfl

theorem enter_CurrentStep (s : step) (stage : stepStage) (rc : State W) :
    (enter s stage rc).1.CurrentStep = s.getStepModel.ID := by
  unfold enter; split <;> rfl

/-! ### The table of step results -/

/-- C13. After a Main-stage invocation, on every exit path, `rc.StepResults`
holds an entry under the step's ID, and a result stands behind it.  At every
other stage the table is left as it was: an ID without an entry before the
invocation has none after it. -/
theorem entry_created_at_main_only (C : Collaborators W) (s : step)
    (executor : Option Int → State W → Effect W × Option error) (rc : State W) :
    (index (runStepExecutor C s stepStageMain executor rc).1.StepResults s.getStepModel.ID
        = some rc.heap.length
      ∧ (recorded (runStepExecutor C s stepStageMain executor rc).1 s.getStepModel.ID).isSome
        = true)
    ∧ ∀ stage, stage ≠ stepStageMain →
        (runStepExecutor C s stage executor rc).1.StepResults = rc.StepResults
        ∧ ∀ id, index rc.StepResults id = none →
            recorded (runStepExecutor C s stage executor rc).1 id = none := by
  constructor
  · have hu := untouched_runStepExecutor C s stepStageMain executor rc
    have hidx : index (runStepExecutor C s stepStageMain executor rc).1.StepResults
        s.getStepModel.ID = some rc.heap.length := by
      rw [hu.1, enter_StepResults_main, index_assign_self]
    refine ⟨hidx, ?_⟩
    have hlen : (runStepExecutor C s stepStageMain executor rc).1.heap.length
        = rc.heap.length + 1 := by
      rw [hu.2.2.2.2.1, enter_heap]
      simp
    simp only [recorded, hidx]
    cases hget : (runStepExecutor C s stepStageMain executor rc).1.heap.get? rc.heap.length with
    | some r => rfl
    | none =>
      rw [List.get?_eq_none] at hget
      omega
  · intro stage hstage
    have hu := untouched_runStepExecutor C s stage executor rc
    have hsr : (runStepExecutor C s stage executor rc).1.StepResults = rc.StepResults := by
      rw [hu.1, enter_StepResults_other s stage rc hstage]
    refine ⟨hsr, ?_⟩
    intro id hid
    simp only [recorded, hsr, hid]

theorem entry_created_at_main_only_witness :
    index demoState.StepResults "build" = none
    ∧ index (runStepExecutor demo (demoStep "oops" "") stepStageMain (demoBody [] none)
        demoState).1.StepResults "build" = some 1
    ∧ recorded (runStepExecutor demo (demoStep "true" "") stepStagePre (demoBody [] none)
        demoState).1 "build" = none
    ∧ recorded (runStepExecutor demo (demoStep "true" "") stepStagePost
        (demoBody [] (some "exit status 1")) demoState).1 "build" = none :=
  ⟨by decide,
    (entry_created_at_main_only demo (demoStep "oops" "") (demoBody [] none) demoState).1.1,
    ((entry_created_at_main_only demo (demoStep "true" "") (demoBody [] none) demoState).2
      stepStagePre (by decide)).2 "build" (by decide),
    ((entry_created_at_main_only demo (demoStep "true" "") (demoBody [] (some "exit status 1"))
      demoState).2 stepStagePost (by decide)).2 "build" (by decide)⟩

/-- C14. On every exit path of an invocation, the back-reference of the step
is the step of the job's list whose ID is the value `rc.CurrentStep` had on
entry (the last one, should several have it), it is nil exactly when no step
of the list has that ID, and `rc.CurrentStep` is the ID of the step. -/
theorem prev_and_current_step (C : Collaborators W) (s : step) (stage : stepStage)
    (executor : Option Int → State W → Effect W × Option error) (rc : State W) :
    (runStepExecutor C s stage executor rc).1.Prev = previousStep rc
    ∧ (runStepExecutor C s stage executor rc).1.CurrentStep = s.getStepModel.ID
    ∧ ((runStepExecutor C s stage executor rc).1.Prev = none
        ↔ ∀ ps ∈ rc.steps, ps.ID ≠ rc.CurrentStep)
    ∧ (∀ ps, (runStepExecutor C s stage executor rc).1.Prev = some ps →
        ps ∈ rc.steps ∧ ps.ID = rc.CurrentStep)
    ∧ (∀ ps ∈ rc.steps, ps.ID = rc.CurrentStep →
        (∀ qs ∈ rc.steps, qs.ID = rc.CurrentStep → qs = ps) →
        (runStepExecutor C s stage executor rc).1.Prev = some ps) := by
  have hu := untouched_runStepExecutor C s stage executor rc
  have hprev : (runStepExecutor C s stage executor rc).1.Prev = previousStep rc := by
    rw [hu.2.2.1, enter_Prev]
  refine ⟨hprev, by rw [hu.2.1, enter_CurrentStep], ?_, ?_, ?_⟩
  · rw [hprev]
    exact previousStep_none_iff rc
  · intro ps h
    rw [hprev] at h
    exact previousStep_some rc ps h
  · intro ps hps hid huniq
    rw [hprev]
    cases hp : previousStep rc with
    | none => exact absurd hid ((previousStep_none_iff rc).mp hp ps hps)
    | some qs =>
      have hq := previousStep_some rc qs hp
      rw [huniq qs hq.1 hq.2]

theorem prev_and_current_step_witness :
    (runStepExecutor demo (demoStep "true" "") stepStageMain (demoBody [] none)
        demoState).1.Prev = some ⟨"setup", "", "", "", []⟩
    ∧ (runStepExecutor demo (demoStep "true" "") stepStageMain (demoBody [] none)
        demoState).1.CurrentStep = "build" :=
  have h := prev_and_current_step demo (demoStep "true" "") stepStageMain (demoBody [] none)
    demoState
  ⟨h.2.2.2.2 ⟨"setup", "", "", "", []⟩ (by decide) (by decide) (by decide), h.2.1⟩

/-- C18. At a stage other than Main, for every ID that has an entry in
`rc.StepResults` (the ID of the step among them), the outcome and the
conclusion recorded under it are the same after the invocation as before it,
on every exit path: a step skipped, an if-expression that fails, a body that
fails with or without continue-on-error. -/
theorem pre_post_keep_statuses (C : Collaborators W) (s : step) (stage : stepStage)
    (executor : Option Int → State W → Effect W × Option error) (rc : State W)
    (id : String) (r : StepResult)
    (hstage : stage ≠ stepStageMain) (hrec : recorded rc id = some r) :
    statuses (recorded (runStepExecutor C s stage executor rc).1 id)
      = some (r.Outcome, r.Conclusion) := by
  have hu := untouched_runStepExecutor C s stage executor rc
  have hsr : (runStepExecutor C s stage executor rc).1.StepResults = rc.StepResults := by
    rw [hu.1, enter_StepResults_other s stage rc hstage]
  unfold recorded at hrec ⊢
  rw [hsr]
  cases hidx : index rc.StepResults id with
  | none => rw [hidx] at hrec; cases hrec
  | some p =>
    rw [hidx] at hrec
    simp only [] at hrec ⊢
    have hlt : p < rc.heap.length := by
      by_contra hge
      rw [List.get?_eq_none.mpr (by omega)] at hrec
      cases hrec
    rw [hu.2.2.2.2.2 p (by omega), enter_heap, List.get?_eq_getElem?,
      List.getElem?_append_left hlt, ← List.get?_eq_getElem?, hrec]
    rfl

theorem pre_post_keep_statuses_witness :
    statuses (recorded demoRanState "build") = some (StepStatusFailure, StepStatusSuccess)
    ∧ statuses (recorded (runStepExecutor demo (demoStep "false" "") stepStagePost
        (demoBody [] none) demoRanState).1 "build")
        = some (StepStatusFailure, StepStatusSuccess)
    ∧ statuses (recorded (runStepExecutor demo (demoStep "oops" "") stepStagePost
        (demoBody [] none) demoRanState).1 "build")
        = some (StepStatusFailure, StepStatusSuccess)
    ∧ statuses (recorded (runStepExecutor demo (demoStep "true" "") stepStagePre
        (demoBody [] (some "exit status 1")) demoRanState).1 "build")
        = some (StepStatusFailure, StepStatusSuccess) :=
  ⟨by decide,
    pre_post_keep_statuses demo (demoStep "false" "") stepStagePost (demoBody [] none)
      demoRanState "build" ⟨StepStatusFailure, StepStatusSuccess, [("artifact", "a.tgz")]⟩
      (by decide) (by decide),
    pre_post_keep_statuses demo (demoStep "oops" "") stepStagePost (demoBody [] none)
      demoRanState "build" ⟨StepStatusFailure, StepStatusSuccess, [("artifact", "a.tgz")]⟩
      (by decide) (by decide),
    pre_post_keep_statuses demo (demoStep "true" "") stepStagePre
      (demoBody [] (some "exit status 1")) demoRanState "build"
      ⟨StepStatusFailure, StepStatusSuccess, [("artifact", "a.tgz")]⟩ (by decide) (by decide)⟩

/-! ### Case-insensitive merge: the invariant -/

theorem index_foldl_assign_none (m target : GoMap) (k : String) (hk : index m k = none) :
    index (m.foldl (fun t kv => assign t kv.1 kv.2) target) k = index target k := by
  induction m generalizing target with
  | nil => rfl
  | cons a m ih =>
    obtain ⟨k', v'⟩ := a
    by_cases e : k' = k
    · simp [index, e] at hk
    · simp only [index, e, if_false] at hk
      rw [List.foldl_cons, ih _ hk, index_assign_other _ _ _ _ e]

theorem initFoldKeys_eq (ToLower : String → String) (target : GoMap) :
    initFoldKeys ToLower target
      = (target.map (fun kv => (ToLower kv.1, kv.1))).foldl
          (fun t kv => assign t kv.1 kv.2) [] := by
  simp [initFoldKeys, List.foldl_map]

theorem foldUnique_of (ToLower : String → String) (m : GoMap) (hwf : WF m)
    (hinj : FoldInjective ToLower m) : FoldUnique ToLower m := by
  unfold FoldUnique
  exact List.Nodup.map_on (fun k1 h1 k2 h2 e => hinj k1 h1 k2 h2 e) hwf

theorem WF_folds (ToLower : String → String) (m : GoMap) (h : FoldUnique ToLower m) :
    WF (m.map (fun kv => (ToLower kv.1, kv.1))) := by
  unfold WF keys
  unfold FoldUnique keys at h
  simpa [List.map_map, Function.comp_def] using h

theorem index_initFoldKeys (ToLower : String → String) (target : GoMap)
    (h : FoldUnique ToLower target) (f : String) :
    index (initFoldKeys ToLower target) f
      = index (target.map (fun kv => (ToLower kv.1, kv.1))) f := by
  rw [initFoldKeys_eq]
  cases hi : index (target.map (fun kv => (ToLower kv.1, kv.1))) f with
  | none => rw [index_foldl_assign_none _ _ _ hi]; rfl
  | some k => exact index_foldl_assign _ _ f k (WF_folds ToLower target h) hi

theorem foldInv_init (ToLower : String → String) (target : GoMap) (hwf : WF target)
    (hinj : FoldInjective ToLower target) :
    FoldInv ToLower (target, initFoldKeys ToLower target) := by
  have hu := foldUnique_of ToLower target hwf hinj
  refine ⟨hwf, hinj, ?_, ?_⟩
  · intro k hk
    show index (initFoldKeys ToLower target) (ToLower k) = some k
    rw [index_initFoldKeys ToLower target hu]
    apply index_of_mem _ _ _ (WF_folds ToLower target hu)
    obtain ⟨kv, hkv, e⟩ := List.mem_map.mp hk
    exact List.mem_map.mpr ⟨kv, hkv, by rw [e]⟩
  · intro f k h
    have h' : index (initFoldKeys ToLower target) f = some k := h
    rw [index_initFoldKeys ToLower target hu] at h'
    obtain ⟨kv, hkv, e⟩ := List.mem_map.mp (mem_of_index _ _ _ h')
    simp only [Prod.mk.injEq] at e
    refine ⟨?_, ?_⟩
    · rw [← e.2]
      exact List.mem_map_of_mem Prod.fst hkv
    · rw [← e.2, e.1]

theorem foldInv_step (ToLower : String → String) (hidem : ∀ x, ToLower (ToLower x) = ToLower x)
    (st : GoMap × GoMap) (kv : String × String) (h : FoldInv ToLower st) :
    FoldInv ToLower (insensitiveWrite ToLower st kv)
    ∧ ∀ k ∈ keys st.1, k ∈ keys (insensitiveWrite ToLower st kv).1 := by
  obtain ⟨t, fk⟩ := st
  obtain ⟨s, v⟩ := kv
  obtain ⟨hwf, hinj, h3, h4⟩ := h
  simp only at hwf hinj h3 h4
  cases hl : index fk (ToLower s) with
  | some k =>
    have hk := h4 _ _ hl
    have hkeys : keys (assign t k v) = keys t := keys_assign_of_mem t k v hk.1
    have hst : insensitiveWrite ToLower (t, fk) (s, v) = (assign t k v, fk) := by
      simp [insensitiveWrite, toKey, hl]
    rw [hst]
    refine ⟨⟨?_, ?_, ?_, ?_⟩, ?_⟩
    · exact WF_assign t k v hwf
    · intro k1 hk1 k2 hk2 e
      simp only [hkeys] at hk1 hk2
      exact hinj k1 hk1 k2 hk2 e
    · intro j hj
      simp only [hkeys] at hj
      exact h3 j hj
    · intro f j hfj
      simp only [hkeys]
      exact h4 f j hfj
    · intro j hj
      simp only [hkeys]
      exact hj
  | none =>
    have hfresh : ∀ k ∈ keys t, ToLower k ≠ ToLower s := by
      intro k hk e
      have := h3 k hk
      rw [e, hl] at this
      cases this
    have hs : s ∉ keys t := fun hm => hfresh s hm rfl
    have hst : insensitiveWrite ToLower (t, fk) (s, v)
        = (t ++ [(s, v)], assign fk (ToLower s) s) := by
      simp [insensitiveWrite, toKey, hl, hidem, assign_of_not_mem t s v hs]
    have hkeys : keys (t ++ [(s, v)]) = keys t ++ [s] := by simp [keys]
    rw [hst]
    refine ⟨⟨?_, ?_, ?_, ?_⟩, ?_⟩
    · rw [← assign_of_not_mem t s v hs]
      exact WF_assign t s v hwf
    · intro k1 hk1 k2 hk2 e
      simp only [hkeys, List.mem_append, List.mem_singleton] at hk1 hk2
      rcases hk1 with hk1 | hk1 <;> rcases hk2 with hk2 | hk2
      · exact hinj k1 hk1 k2 hk2 e
      · subst hk2; exact absurd e (hfresh k1 hk1)
      · subst hk1; exact absurd e.symm (hfresh k2 hk2)
      · rw [hk1, hk2]
    · intro j hj
      simp only [hkeys, List.mem_append, List.mem_singleton] at hj
      rcases hj with hj | hj
      · show index (assign fk (ToLower s) s) (ToLower j) = some j
        rw [index_assign_other _ _ _ _ (fun e => hfresh j hj e.symm)]
        exact h3 j hj
      · subst hj
        exact index_assign_self _ _ _
    · intro f j hfj
      have hfj' : index (assign fk (ToLower s) s) f = some j := hfj
      simp only [hkeys, List.mem_append, List.mem_singleton]
      by_cases e : ToLower s = f
      · subst e
        rw [index_assign_self] at hfj'
        cases hfj'
        exact ⟨Or.inr rfl, rfl⟩
      · rw [index_assign_other _ _ _ _ e] at hfj'
        exact ⟨Or.inl (h4 f j hfj').1, (h4 f j hfj').2⟩
    · intro j hj
      simp only [hkeys, List.mem_append]
      exact Or.inl hj

theorem foldInv_foldl (ToLower : String → String) (hidem : ∀ x, ToLower (ToLower x) = ToLower x)
    (m : GoMap) (st : GoMap × GoMap) (h : FoldInv ToLower st) :
    FoldInv ToLower (m.foldl (insensitiveWrite ToLower) st)
    ∧ ∀ k ∈ keys st.1, k ∈ keys (m.foldl (insensitiveWrite ToLower) st).1 := by
  induction m generalizing st with
  | nil => exact ⟨h, fun _ hk => hk⟩
  | cons a m ih =>
    have h1 := foldInv_step ToLower hidem st a h
    have h2 := ih _ h1.1
    exact ⟨h2.1, fun k hk => h2.2 k (h1.2 k hk)⟩

theorem foldInv_maps (ToLower : String → String) (hidem : ∀ x, ToLower (ToLower x) = ToLower x)
    (maps : List GoMap) (st : GoMap × GoMap) (h : FoldInv ToLower st) :
    FoldInv ToLower (maps.foldl (fun st m => m.foldl (insensitiveWrite ToLower) st) st)
    ∧ ∀ k ∈ keys st.1,
        k ∈ keys (maps.foldl (fun st m => m.foldl (insensitiveWrite ToLower) st) st).1 := by
  induction maps generalizing st with
  | nil => exact ⟨h, fun _ hk => hk⟩
  | cons m maps ih =>
    have h1 := foldInv_foldl ToLower hidem m st h
    have h2 := ih _ h1.1
    exact ⟨h2.1, fun k hk => h2.2 k (h1.2 k hk)⟩

/-- C19. With an idempotent lower-casing, on a target in which no two
distinct keys have the same fold, and for every sequence of source maps, the
target after `mergeIntoMapCaseInsensitive` again has no two distinct keys with
the same fold (and is a well-formed map), and every key of the target before
the merge is a key after it, in its spelling. -/
theorem merge_keeps_fold_unique (ToLower : String → String) (target : GoMap)
    (maps : List GoMap)
    (hidem : ∀ x, ToLower (ToLower x) = ToLower x)
    (hwf : WF target) (hinj : FoldInjective ToLower target) :
    WF (mergeIntoMapCaseInsensitive ToLower target maps)
    ∧ FoldInjective ToLower (mergeIntoMapCaseInsensitive ToLower target maps)
    ∧ ∀ k ∈ keys target, k ∈ keys (mergeIntoMapCaseInsensitive ToLower target maps) := by
  have h := foldInv_maps ToLower hidem maps (target, initFoldKeys ToLower target)
    (foldInv_init ToLower target hwf hinj)
  exact ⟨h.1.1, h.1.2.1, h.2⟩

theorem merge_keeps_fold_unique_witness :
    keys (mergeIntoMapCaseInsensitive demo.ToLower [("Path", "/bin"), ("HOME", "/root")]
        [[("PATH", "/usr/bin"), ("home", "/home/act")], [("path", "/opt"), ("Shell", "sh")]])
      = ["Path", "HOME", "Shell"]
    ∧ FoldInjective demo.ToLower
        (mergeIntoMapCaseInsensitive demo.ToLower [("Path", "/bin"), ("HOME", "/root")]
          [[("PATH", "/usr/bin"), ("home", "/home/act")], [("path", "/opt"), ("Shell", "sh")]]) :=
  ⟨by decide,
    (merge_keeps_fold_unique demo.ToLower [("Path", "/bin"), ("HOME", "/root")]
      [[("PATH", "/usr/bin"), ("home", "/home/act")], [("path", "/opt"), ("Shell", "sh")]]
      demo_ToLower_idempotent (by decide)
      (by
        intro k1 h1 k2 h2 e
        simp only [keys, List.map_cons, List.map_nil, List.mem_cons, List.mem_singleton,
          List.not_mem_nil, or_false] at h1 h2
        rcases h1 with h1 | h1 <;> rcases h2 with h2 | h2 <;> subst h1 <;> subst h2 <;>
          first | rfl | exact absurd e (by decide))).2.1⟩

/-! ### Independence of the visiting order -/

theorem index_assign {β : Type} (m : List (String × β)) (k j : String) (v : β) :
    index (assign m k v) j = if k = j then some v else index m j := by
  by_cases h : k = j
  · subst h; simp [index_assign_self]
  · simp [h, index_assign_other _ _ _ _ h]

theorem mapEq_assign {β : Type} (a b : List (String × β)) (k : String) (v : β)
    (h : MapEq a b) : MapEq (assign a k v) (assign b k v) := by
  intro j
  rw [index_assign, index_assign, h j]

theorem WF_of_perm {β : Type} {m m' : List (String × β)} (hp : m.Perm m') (h : WF m) :
    WF m' :=
  (List.Perm.nodup_iff (hp.map Prod.fst)).mp h

theorem mapEq_of_perm {β : Type} {m m' : List (String × β)} (hp : m.Perm m') (h : WF m) :
    MapEq m m' := by
  intro k
  cases hi : index m k with
  | some v =>
    exact (index_of_mem m' k v (WF_of_perm hp h) (hp.mem_iff.mp (mem_of_index m k v hi))).symm
  | none =>
    symm
    rw [index_eq_none_iff] at hi ⊢
    intro hm
    exact hi ((hp.map Prod.fst).mem_iff.mpr hm)

theorem index_foldl_assign_eq (m target : GoMap) (k : String) (hwf : WF m) :
    index (m.foldl (fun t kv => assign t kv.1 kv.2) target) k
      = match index m k with
        | some v => some v
        | none => index target k := by
  cases hi : index m k with
  | some v => exact index_foldl_assign m target k v hwf hi
  | none => exact index_foldl_assign_none m target k hi

theorem mapEq_foldl_assign {m m' t t' : GoMap} (hp : m.Perm m') (hwf : WF m)
    (ht : MapEq t t') :
    MapEq (m.foldl (fun t kv => assign t kv.1 kv.2) t)
      (m'.foldl (fun t kv => assign t kv.1 kv.2) t') := by
  intro k
  rw [index_foldl_assign_eq m t k hwf, index_foldl_assign_eq m' t' k (WF_of_perm hp hwf),
    mapEq_of_perm hp hwf k, ht k]

theorem mapEq_mergeIntoMapCaseSensitive {maps maps' : List GoMap}
    (hmaps : List.Forall₂ List.Perm maps maps') (hwf : ∀ m ∈ maps, WF m) :
    ∀ t t' : GoMap, MapEq t t' →
      MapEq (mergeIntoMapCaseSensitive t maps) (mergeIntoMapCaseSensitive t' maps') := by
  induction hmaps with
  | nil => intro t t' h; exact h
  | cons hp _ ih =>
    intro t t' h
    exact ih (fun m hm => hwf m (List.mem_cons_of_mem _ hm)) _ _
      (mapEq_foldl_assign hp (hwf _ (List.mem_cons_self _ _)) h)

theorem toKey_fst_congr (ToLower : String → String) (fk fk' : GoMap) (s : String)
    (h : index fk (ToLower s) = index fk' (ToLower s)) :
    (toKey ToLower fk s).1 = (toKey ToLower fk' s).1 := by
  simp only [toKey, h]
  cases index fk' (ToLower s) <;> rfl

theorem toKey_fold (ToLower : String → String) (fk : GoMap) (s : String)
    (h : Spelled ToLower fk) : ToLower (toKey ToLower fk s).1 = ToLower s := by
  simp only [toKey]
  cases hi : index fk (ToLower s) with
  | none => rfl
  | some k => exact h _ _ hi

theorem index_step_fst (ToLower : String → String) (p : GoMap × GoMap) (x : String × String)
    (j : String) :
    index (insensitiveWrite ToLower p x).1 j
      = if (toKey ToLower p.2 x.1).1 = j then some x.2 else index p.1 j := by
  simp only [insensitiveWrite, index_assign]

theorem index_step_snd (ToLower : String → String) (hidem : ∀ x, ToLower (ToLower x) = ToLower x)
    (p : GoMap × GoMap) (x : String × String) (f : String) :
    index (insensitiveWrite ToLower p x).2 f
      = if index p.2 (ToLower x.1) = none ∧ ToLower x.1 = f then some x.1
        else index p.2 f := by
  simp only [insensitiveWrite, toKey]
  cases hi : index p.2 (ToLower x.1) with
  | some k => simp
  | none =>
    simp only [hidem, index_assign, true_and]

theorem pairEq_refl (p : GoMap × GoMap) : PairEq p p := ⟨fun _ => rfl, fun _ => rfl⟩

theorem pairEq_trans {p q r : GoMap × GoMap} (h1 : PairEq p q) (h2 : PairEq q r) :
    PairEq p r :=
  ⟨fun k => (h1.1 k).trans (h2.1 k), fun k => (h1.2 k).trans (h2.2 k)⟩

theorem pairEq_step (ToLower : String → String) {p q : GoMap × GoMap} (x : String × String)
    (h : PairEq p q) : PairEq (insensitiveWrite ToLower p x) (insensitiveWrite ToLower q x) := by
  have hk : (toKey ToLower p.2 x.1).1 = (toKey ToLower q.2 x.1).1 :=
    toKey_fst_congr ToLower p.2 q.2 x.1 (h.2 _)
  constructor
  · intro j
    rw [index_step_fst, index_step_fst, hk, h.1 j]
  · intro f
    simp only [insensitiveWrite, toKey, h.2 (ToLower x.1)]
    cases index q.2 (ToLower x.1) with
    | some k => exact h.2 f
    | none => exact mapEq_assign _ _ _ _ h.2 f

theorem pairEq_foldl (ToLower : String → String) (l : GoMap) {p q : GoMap × GoMap}
    (h : PairEq p q) :
    PairEq (l.foldl (insensitiveWrite ToLower) p) (l.foldl (insensitiveWrite ToLower) q) := by
  induction l generalizing p q with
  | nil => exact h
  | cons a l ih => exact ih (pairEq_step ToLower a h)

theorem spelled_of_mapEq (ToLower : String → String) {fk fk' : GoMap} (h : MapEq fk fk')
    (hs : Spelled ToLower fk) : Spelled ToLower fk' :=
  fun f k hi => hs f k ((h f).trans hi)

theorem spelled_step (ToLower : String → String) (hidem : ∀ x, ToLower (ToLower x) = ToLower x)
    (p : GoMap × GoMap) (x : String × String) (hs : Spelled ToLower p.2) :
    Spelled ToLower (insensitiveWrite ToLower p x).2 := by
  intro f k hi
  rw [index_step_snd ToLower hidem] at hi
  split at hi
  · rename_i hc
    cases hi
    exact hc.2
  · exact hs f k hi

theorem spelled_foldl (ToLower : String → String) (hidem : ∀ x, ToLower (ToLower x) = ToLower x)
    (l : GoMap) (p : GoMap × GoMap) (hs : Spelled ToLower p.2) :
    Spelled ToLower (l.foldl (insensitiveWrite ToLower) p).2 := by
  induction l generalizing p with
  | nil => exact hs
  | cons a l ih => exact ih _ (spelled_step ToLower hidem p a hs)

/-- Two writes of keys with different folds commute. -/
theorem pairEq_swap (ToLower : String → String) (hidem : ∀ x, ToLower (ToLower x) = ToLower x)
    (p : GoMap × GoMap) (x y : String × String) (hs : Spelled ToLower p.2)
    (hxy : ToLower x.1 ≠ ToLower y.1) :
    PairEq (insensitiveWrite ToLower (insensitiveWrite ToLower p x) y)
      (insensitiveWrite ToLower (insensitiveWrite ToLower p y) x) := by
  have hyx : ToLower y.1 ≠ ToLower x.1 := fun e => hxy e.symm
  have hiy : index (insensitiveWrite ToLower p x).2 (ToLower y.1) = index p.2 (ToLower y.1) := by
    rw [index_step_snd ToLower hidem]
    simp [hxy]
  have hix : index (insensitiveWrite ToLower p y).2 (ToLower x.1) = index p.2 (ToLower x.1) := by
    rw [index_step_snd ToLower hidem]
    simp [hyx]
  have hky : (toKey ToLower (insensitiveWrite ToLower p x).2 y.1).1
      = (toKey ToLower p.2 y.1).1 := toKey_fst_congr _ _ _ _ hiy
  have hkx : (toKey ToLower (insensitiveWrite ToLower p y).2 x.1).1
      = (toKey ToLower p.2 x.1).1 := toKey_fst_congr _ _ _ _ hix
  have hne : (toKey ToLower p.2 x.1).1 ≠ (toKey ToLower p.2 y.1).1 := by
    intro e
    apply hxy
    rw [← toKey_fold ToLower p.2 x.1 hs, ← toKey_fold ToLower p.2 y.1 hs, e]
  constructor
  · intro j
    rw [index_step_fst, index_step_fst, index_step_fst, index_step_fst, hky, hkx]
    by_cases h1 : (toKey ToLower p.2 x.1).1 = j
    · have h2 : ¬ (toKey ToLower p.2 y.1).1 = j := fun e => hne (h1.trans e.symm)
      simp [h1, h2]
    · simp [h1]
  · intro f
    rw [index_step_snd ToLower hidem (insensitiveWrite ToLower p x) y f,
      index_step_snd ToLower hidem (insensitiveWrite ToLower p y) x f, hiy, hix,
      index_step_snd ToLower hidem p x f, index_step_snd ToLower hidem p y f]
    by_cases h1 : ToLower x.1 = f
    · have h2 : ¬ ToLower y.1 = f := fun e => hxy (h1.trans e.symm)
      simp [h1, h2]
    · simp [h1]

theorem pairwise_folds_of_perm (ToLower : String → String) {l l' : GoMap} (hp : l.Perm l')
    (h : FoldUnique ToLower l) : FoldUnique ToLower l' := by
  unfold FoldUnique keys at *
  exact (List.Perm.nodup_iff ((hp.map Prod.fst).map ToLower)).mp h

/-- The inner loop of `mergeIntoMapCaseInsensitive` gives the same maps for
every visiting order of a source map whose keys have different folds. -/
theorem pairEq_foldl_perm (ToLower : String → String)
    (hidem : ∀ x, ToLower (ToLower x) = ToLower x) {l l' : GoMap} (hp : l.Perm l') :
    FoldUnique ToLower l → ∀ p q : GoMap × GoMap, PairEq p q → Spelled ToLower p.2 →
      PairEq (l.foldl (insensitiveWrite ToLower) p) (l'.foldl (insensitiveWrite ToLower) q) := by
  induction hp with
  | nil => intro _ p q h _; exact h
  | @cons x l₁ l₂ _ ih =>
    intro hu p q h hs
    have hu' : FoldUnique ToLower l₁ := by
      unfold FoldUnique keys at hu ⊢
      simp only [List.map_cons, List.nodup_cons] at hu
      exact hu.2
    exact ih hu' _ _ (pairEq_step ToLower x h) (spelled_step ToLower hidem p x hs)
  | swap x y l =>
    intro hu p q h hs
    have hxy : ToLower y.1 ≠ ToLower x.1 := by
      unfold FoldUnique keys at hu
      simp only [List.map_cons, List.nodup_cons, List.mem_cons, not_or] at hu
      exact hu.1.1
    simp only [List.foldl_cons]
    exact pairEq_foldl ToLower l
      (pairEq_trans (pairEq_swap ToLower hidem p y x hs hxy)
        (pairEq_step ToLower y (pairEq_step ToLower x h)))
  | trans h1 _ ih1 ih2 =>
    intro hu p q h hs
    exact pairEq_trans (ih1 hu p p (pairEq_refl p) hs)
      (ih2 (pairwise_folds_of_perm ToLower h1 hu) p q h hs)

theorem pairEq_maps_perm (ToLower : String → String)
    (hidem : ∀ x, ToLower (ToLower x) = ToLower x) {maps maps' : List GoMap}
    (hmaps : List.Forall₂ List.Perm maps maps') (hu : ∀ m ∈ maps, FoldUnique ToLower m) :
    ∀ p q : GoMap × GoMap, PairEq p q → Spelled ToLower p.2 →
      PairEq (maps.foldl (fun st m => m.foldl (insensitiveWrite ToLower) st) p)
        (maps'.foldl (fun st m => m.foldl (insensitiveWrite ToLower) st) q) := by
  induction hmaps with
  | nil => intro p q h _; exact h
  | cons hp _ ih =>
    intro p q h hs
    simp only [List.foldl_cons]
    exact ih (fun m hm => hu m (List.mem_cons_of_mem _ hm)) _ _
      (pairEq_foldl_perm ToLower hidem hp (hu _ (List.mem_cons_self _ _)) p q h hs)
      (spelled_foldl ToLower hidem _ p hs)

theorem mapEq_initFoldKeys (ToLower : String → String) {target target' : GoMap}
    (hp : target.Perm target') (hu : FoldUnique ToLower target) :
    MapEq (initFoldKeys ToLower target) (initFoldKeys ToLower target') := by
  intro f
  rw [index_initFoldKeys ToLower target hu,
    index_initFoldKeys ToLower target' (pairwise_folds_of_perm ToLower hp hu)]
  exact mapEq_of_perm (hp.map _) (WF_folds ToLower target hu) f

theorem spelled_initFoldKeys (ToLower : String → String) (target : GoMap)
    (hu : FoldUnique ToLower target) : Spelled ToLower (initFoldKeys ToLower target) := by
  intro f k hi
  rw [index_initFoldKeys ToLower target hu] at hi
  obtain ⟨kv, _, e⟩ := List.mem_map.mp (mem_of_index _ _ _ hi)
  simp only [Prod.mk.injEq] at e
  rw [← e.2, e.1]

/-- C20. The merged target, as a map, does not depend on the order in which
the entries of a map are visited.  For well-formed maps, the targets given by
`mergeIntoMapCaseSensitive` for two visiting orders of each source map hold
the same value, or none, under every key.  With an idempotent lower-casing,
the same holds of `mergeIntoMapCaseInsensitive` for two visiting orders of the
target and of each source map, when in none of them two distinct keys have the
same fold. -/
theorem merge_order_independent (ToLower : String → String) (target target' : GoMap)
    (maps maps' : List GoMap)
    (hidem : ∀ x, ToLower (ToLower x) = ToLower x)
    (htarget : target.Perm target') (hmaps : List.Forall₂ List.Perm maps maps')
    (hwf : WF target) (hwfm : ∀ m ∈ maps, WF m) :
    MapEq (mergeIntoMapCaseSensitive target maps) (mergeIntoMapCaseSensitive target' maps')
    ∧ (FoldInjective ToLower target → (∀ m ∈ maps, FoldInjective ToLower m) →
        MapEq (mergeIntoMapCaseInsensitive ToLower target maps)
          (mergeIntoMapCaseInsensitive ToLower target' maps')) := by
  constructor
  · exact mapEq_mergeIntoMapCaseSensitive hmaps hwfm _ _ (mapEq_of_perm htarget hwf)
  · intro hinj hinjm
    have hu := foldUnique_of ToLower target hwf hinj
    exact (pairEq_maps_perm ToLower hidem hmaps
      (fun m hm => foldUnique_of ToLower m (hwfm m hm) (hinjm m hm))
      (target, initFoldKeys ToLower target) (target', initFoldKeys ToLower target')
      ⟨mapEq_of_perm htarget hwf, mapEq_initFoldKeys ToLower htarget hu⟩
      (spelled_initFoldKeys ToLower target hu)).1

theorem merge_order_independent_witness :
    (index (mergeIntoMapCaseSensitive [("HOME", "/root"), ("Shell", "sh")]
        [[("PATH", "/bin"), ("home", "/home/act")]]) "home"
      = index (mergeIntoMapCaseSensitive [("Shell", "sh"), ("HOME", "/root")]
        [[("home", "/home/act"), ("PATH", "/bin")]]) "home")
    ∧ (index (mergeIntoMapCaseInsensitive demo.ToLower [("HOME", "/root"), ("Shell", "sh")]
        [[("PATH", "/bin"), ("home", "/home/act")]]) "HOME"
      = index (mergeIntoMapCaseInsensitive demo.ToLower [("Shell", "sh"), ("HOME", "/root")]
        [[("home", "/home/act"), ("PATH", "/bin")]]) "HOME")
    ∧ index (mergeIntoMapCaseInsensitive demo.ToLower [("Shell", "sh"), ("HOME", "/root")]
        [[("home", "/home/act"), ("PATH", "/bin")]]) "HOME" = some "/home/act" :=
  have h := merge_order_independent demo.ToLower [("HOME", "/root"), ("Shell", "sh")]
    [("Shell", "sh"), ("HOME", "/root")] [[("PATH", "/bin"), ("home", "/home/act")]]
    [[("home", "/home/act"), ("PATH", "/bin")]] demo_ToLower_idempotent
    (List.Perm.swap _ _ _) (List.Forall₂.cons (List.Perm.swap _ _ _) List.Forall₂.nil)
    (by decide) (by decide)
  ⟨h.1 "home", h.2 (by decide) (by decide) "HOME", by decide⟩

end runner
